import Mathlib

/-!
Meego / Maliit keyboard plugins: touch counter, layouts manager, style.

A shallow embedding of
* the touch-point counter of `MImKey` (exercised by `tests/ut_mimkey/ut_mimkey.cpp`),
* `LayoutsManager` (`m-keyboard/common/layoutsmanager.cpp`),
* `Style` image loading (`maliit-keyboard/lib/logic/style.cpp`),

followed by the properties established about them.
-/

namespace MeegoKeyboard

/-! ## MImKey: the touch-point counter -/

/-- Button states of `MImAbstractKey::ButtonState` that the touch counter switches between. -/
inductive ButtonState where
  | Normal
  | Pressed
  deriving DecidableEq, Repr

/-- Modelled from the spec: the class `MImKey` (mimkey.cpp) is missing from the sources, only
its unit test is present. The key button holds a touch-point count (a C++ `int`) and a
two-state indicator. -/
structure MImKey where
  currentTouchPointCount : Int
  state : ButtonState
  deriving DecidableEq, Repr

namespace MImKey

/-- Modelled from the spec: a freshly constructed key, as `Ut_KeyButton::init` makes it; the test
reads a count of 0 from it and state `Normal` (row "try to take more than possible"). -/
def fresh : MImKey :=
  { currentTouchPointCount := 0, state := ButtonState.Normal }

/-- Accessor `MImKey::touchPointCount()`. -/
def touchPointCount (k : MImKey) : Int :=
  k.currentTouchPointCount

/-- Modelled from the spec: `MImKey::increaseTouchPointCount()`, missing from the sources. The
counter "clamps a count to [0, limit]": a step that would leave the range is rejected and
reported by `false`; an accepted step makes the indicator `Pressed`. The first argument is the
constant `MImKey::touchPointLimit()`, whose value the sources do not give. -/
def increaseTouchPointCount (touchPointLimit : Nat) (k : MImKey) : Bool × MImKey :=
  if k.currentTouchPointCount + 1 ≤ (touchPointLimit : Int) then
    let c := k.currentTouchPointCount + 1
    (true, { currentTouchPointCount := c,
             state := if 0 < c then ButtonState.Pressed else k.state })
  else
    (false, k)

/-- Modelled from the spec: `MImKey::decreaseTouchPointCount()`, missing from the sources. A step
below 0 is rejected and reported by `false`; an accepted step that reaches 0 puts the indicator
back to `Normal`. -/
def decreaseTouchPointCount (k : MImKey) : Bool × MImKey :=
  if 0 ≤ k.currentTouchPointCount - 1 then
    let c := k.currentTouchPointCount - 1
    (true, { currentTouchPointCount := c,
             state := if c = 0 then ButtonState.Normal else k.state })
  else
    (false, k)

end MImKey

/-- Direction of one touch-count step, the `Up` / `Down` of the test's `DirectionPair`. -/
inductive Direction where
  | Up
  | Down
  deriving DecidableEq, Repr

/-- One call of the test loop in `Ut_KeyButton::testTouchPointCount`: `Up` calls
`increaseTouchPointCount`, `Down` calls `decreaseTouchPointCount`. -/
def touchStep (touchPointLimit : Nat) (k : MImKey) : Direction → Bool × MImKey
  | Direction.Up => MImKey.increaseTouchPointCount touchPointLimit k
  | Direction.Down => MImKey.decreaseTouchPointCount k

/-- The key after a whole sequence of calls, made from left to right. -/
def touchRun (touchPointLimit : Nat) (k : MImKey) (calls : List Direction) : MImKey :=
  calls.foldl (fun acc d => (touchStep touchPointLimit acc d).2) k

/-- The test loop of `Ut_KeyButton::testTouchPointCount`: `initialCount` increases on a fresh
key, then the listed calls, collecting the boolean result of each. -/
def testTouchPointCount (touchPointLimit : Nat) (initialCount : Nat) (calls : List Direction) :
    List Bool × MImKey :=
  calls.foldl
    (fun acc d => (acc.1 ++ [(touchStep touchPointLimit acc.2 d).1], (touchStep touchPointLimit acc.2 d).2))
    ([], touchRun touchPointLimit MImKey.fresh (List.replicate initialCount Direction.Up))

/-- The invariant kept by the counter: the count is in `[0, limit]` and the indicator is
`Pressed` exactly for a positive count. -/
def TouchInv (touchPointLimit : Nat) (k : MImKey) : Prop :=
  0 ≤ k.currentTouchPointCount ∧ k.currentTouchPointCount ≤ (touchPointLimit : Int) ∧
    (k.state = ButtonState.Pressed ↔ 0 < k.currentTouchPointCount)

/-! ## Qt strings and maps

`QString` values are Lean strings. Of the Qt library only what `LayoutsManager` calls is
described: `QString::toLower`, `QString::operator<` and the `QMap<QString, T>` operations
`find`, `contains`, `insert`, `remove`, `keys`, `count`, `isEmpty` and the write through an
iterator. -/

namespace QString

/-- Function `QString::toLower()`, on the letters `A` to `Z`; every other character is kept. -/
def toLower (s : String) : String :=
  String.mk (s.data.map Char.toLower)

/-- Function `QString::isEmpty()`. -/
def isEmpty (s : String) : Bool :=
  s.data.isEmpty

/-- Comparison `operator<(const QString &, const QString &)`: lexicographic on the characters. -/
def lessThan (a b : String) : Bool :=
  decide (a.data < b.data)

end QString

/-- A `QMap<QString, T>`: the items as a list; the operations below keep it in ascending key
order, one item per key. -/
abbrev QMap (T : Type) := List (String × T)

namespace QMap

variable {T : Type}

/-- Function `QMap::find(key)`: the value of the item with that key, `none` for `end()`. -/
def find : QMap T → String → Option T
  | [], _ => none
  | (k, v) :: rest, key => if k = key then some v else find rest key

/-- Function `QMap::contains(key)`. -/
def contains (m : QMap T) (key : String) : Bool :=
  (find m key).isSome

/-- Function `QMap::insert(key, value)`: replaces the value of an existing item, otherwise puts
the new item at its place in the key order. -/
def insert : QMap T → String → T → QMap T
  | [], key, value => [(key, value)]
  | (k, v) :: rest, key, value =>
    if QString.lessThan key k then (key, value) :: (k, v) :: rest
    else if k = key then (key, value) :: rest
    else (k, v) :: insert rest key value

/-- Assignment `*iterator = value` for the iterator that `find(key)` returned. -/
def assign : QMap T → String → T → QMap T
  | [], _, _ => []
  | (k, v) :: rest, key, value =>
    if k = key then (k, value) :: rest else (k, v) :: assign rest key value

/-- Function `QMap::remove(key)`. -/
def remove (m : QMap T) (key : String) : QMap T :=
  List.filter (fun item => !decide (item.1 = key)) m

/-- Function `QMap::keys()`: the keys in the order of the items. -/
def keys (m : QMap T) : List String :=
  List.map Prod.fst m

/-- Function `QMap::count()`. -/
def count (m : QMap T) : Nat :=
  List.length m

/-- Function `QMap::isEmpty()`. -/
def isEmpty (m : QMap T) : Bool :=
  List.isEmpty m

/-- The items are in strictly ascending key order, as a `QMap` keeps them. -/
def Ordered (m : QMap T) : Prop :=
  List.Pairwise (fun a b : String => a < b) (keys m)

end QMap

/-! ## Layout data (`layoutdata.h`) -/

/-- Enumeration `M::Orientation` of the toolkit. -/
inductive Orientation where
  | Landscape
  | Portrait
  deriving DecidableEq, Repr

/-- Enumeration `LayoutSection::Type`. -/
inductive SectionType where
  | Sloppy
  | NonSloppy
  deriving DecidableEq, Repr

/-- Structure `LayoutSection::Row`; a key (`VKBDataKey *`) is stood for by a number, and the
`qreal` width is left out. -/
structure Row where
  keys : List Nat
  spacerIndices : List Int
  deriving DecidableEq, Repr

/-- Class `LayoutSection`, without its `qreal` and alignment members. -/
structure LayoutSection where
  mMaxColumns : Int
  maxRows : Int
  movable : Bool
  sectionName : String
  sectionType : SectionType
  rows : List Row
  deriving DecidableEq, Repr

/-- Enumeration `LayoutData::LayoutType`. -/
inductive LayoutType where
  | General
  | Url
  | Email
  | Number
  | PhoneNumber
  | Common
  | NumLayoutTypes
  deriving DecidableEq, Repr

/-- Class `LayoutData`; `sectionMap` repeats `sections` by name and is left out. -/
structure LayoutData where
  layoutOrientation : Orientation
  layoutType : LayoutType
  sections : List LayoutSection
  deriving DecidableEq, Repr

namespace LayoutData

/-- Modelled from the spec: the default constructor `LayoutData()` is declared in layoutdata.h
but its body (layoutdata.cpp) is missing; it is taken to make a layout without sections.
`LayoutsManager::layout` keeps one such object, `static const LayoutData empty`. -/
def empty : LayoutData :=
  { layoutOrientation := Orientation.Landscape, layoutType := LayoutType.General, sections := [] }

end LayoutData

/-- Modelled from the spec: the class `KeyboardData` (keyboarddata.h) is missing from the
sources. It is what "one XML-like resource file per language" is loaded into; of it
`LayoutsManager` reads `language()`, `title()`, `autoCapsEnabled()` and `layout(type,
orientation)`. -/
structure KeyboardData where
  language : String
  title : String
  autoCapsEnabled : Bool
  layouts : List LayoutData
  deriving DecidableEq, Repr

/-- The layout files that can be loaded at the time of a call: the keyboard that parsing the
file of a given name yields, `none` when the file is missing or does not parse. -/
abbrev LayoutFiles := String → Option KeyboardData

namespace KeyboardData

/-- Modelled from the spec: the constructor `KeyboardData(styleContainer)`, missing from the
sources: a keyboard into which nothing is loaded yet. -/
def new : KeyboardData :=
  { language := "", title := "", autoCapsEnabled := false, layouts := [] }

/-- Modelled from the spec: `KeyboardData::layout(type, orientation)`, missing from the sources:
the loaded layout of that type and orientation, `none` for a null pointer. -/
def layout (kb : KeyboardData) (type : LayoutType) (orientation : Orientation) :
    Option LayoutData :=
  kb.layouts.find? (fun l => decide (l.layoutType = type) && decide (l.layoutOrientation = orientation))

/-- Modelled from the spec: `KeyboardData::loadNokiaKeyboard(fileName)`, missing from the
sources: "loads one XML-like resource file" and reports by its boolean result whether that
worked; a failed load leaves the keyboard as it was. -/
def loadNokiaKeyboard (files : LayoutFiles) (kb : KeyboardData) (fileName : String) :
    Bool × KeyboardData :=
  match files fileName with
  | some loaded => (true, loaded)
  | none => (false, kb)

end KeyboardData

/-! ## LayoutsManager (`layoutsmanager.cpp`) -/

/-- Constant `LayoutFileExtension`. -/
def LayoutFileExtension : String := ".xml"

/-- Constant `FallbackLanguage`. -/
def FallbackLanguage : String := "en_gb"

/-- Enumeration `LayoutsManager::NumberFormat`. -/
inductive NumberFormat where
  | NumLatin
  | NumArabic
  deriving DecidableEq, Repr

/-- Modelled from the spec: the enumeration `HardwareKeyboardLayout` (layoutsmanager.h) is
missing from the sources, which name only its enumerator `InvalidHardwareKeyboard`; every other
enumerator is stood for by a number. -/
inductive HardwareKeyboardLayout where
  | InvalidHardwareKeyboard
  | layout (index : Nat)
  deriving DecidableEq, Repr

/-- Enumeration `HardwareSymbolVariant`: the four enumerators that `symbolVariantFileName`
names; any further value, which the `default` label of its switch takes, is stood for by a
number. -/
inductive HardwareSymbolVariant where
  | HwSymbolVariantUs
  | HwSymbolVariantEuro
  | HwSymbolVariantArabic
  | HwSymbolVariantChinese
  | other (value : Nat)
  deriving DecidableEq, Repr

/-- The members of `LayoutsManager` that the functions below read or write. A `KeyboardData *`
that may be null is an `Option`. -/
structure LayoutsManager where
  keyboards : QMap (Option KeyboardData)
  hwKeyboard : KeyboardData
  numberKeyboard : KeyboardData
  phoneNumberKeyboard : KeyboardData
  numberFormat : NumberFormat
  xkbCurrentLayout : String
  xkbCurrentVariant : String
  currentHwkbLayoutType : HardwareKeyboardLayout
  deriving DecidableEq, Repr

namespace LayoutsManager

/-- The manager as the member initialisers of the constructor leave it, before the constructor
body makes its first `syncLanguages()` call: no keyboard is loaded. -/
def init : LayoutsManager :=
  { keyboards := []
    hwKeyboard := KeyboardData.new
    numberKeyboard := KeyboardData.new
    phoneNumberKeyboard := KeyboardData.new
    numberFormat := NumberFormat.NumLatin
    xkbCurrentLayout := ""
    xkbCurrentVariant := ""
    currentHwkbLayoutType := HardwareKeyboardLayout.InvalidHardwareKeyboard }

/-- Function `LayoutsManager::languageCount`. -/
def languageCount (m : LayoutsManager) : Nat :=
  QMap.count m.keyboards

/-- Function `LayoutsManager::languageList`. -/
def languageList (m : LayoutsManager) : List String :=
  QMap.keys m.keyboards

/-- Function `LayoutsManager::keyboardByName`; `none` is the null pointer. -/
def keyboardByName (m : LayoutsManager) (language : String) : Option KeyboardData :=
  match QMap.find m.keyboards language with
  | some keyboard => keyboard
  | none => none

/-- Function `LayoutsManager::keyboardTitle`. -/
def keyboardTitle (m : LayoutsManager) (language : String) : String :=
  match keyboardByName m language with
  | some keyboard => keyboard.title
  | none => ""

/-- Function `LayoutsManager::autoCapsEnabled`. -/
def autoCapsEnabled (m : LayoutsManager) (language : String) : Bool :=
  match keyboardByName m language with
  | some keyboard => keyboard.autoCapsEnabled
  | none => false

/-- Function `LayoutsManager::keyboardLanguage`. -/
def keyboardLanguage (m : LayoutsManager) (language : String) : String :=
  match keyboardByName m language with
  | some keyboard => keyboard.language
  | none => ""

/-- The pointer `lm` of `LayoutsManager::layout` before the null check. -/
def layoutPointer (m : LayoutsManager) (language : String) (type : LayoutType)
    (orientation : Orientation) : Option LayoutData :=
  if type = LayoutType.Number then
    m.numberKeyboard.layout type orientation
  else if type = LayoutType.PhoneNumber then
    m.phoneNumberKeyboard.layout type orientation
  else
    match QMap.find m.keyboards language with
    | some (some keyboard) => keyboard.layout type orientation
    | _ => none

/-- Function `LayoutsManager::layout`. -/
def layout (m : LayoutsManager) (language : String) (type : LayoutType)
    (orientation : Orientation) : LayoutData :=
  match layoutPointer m language type orientation with
  | some lm => lm
  | none => LayoutData.empty

/-- The keyboard that `loadLanguage` has in hand after its one or two load attempts, with the
`loaded` flag: first the file `language + ".xml"`, then, if that failed, the file
`language.toLower() + ".xml"`. -/
def loadAttempts (files : LayoutFiles) (language : String) : Bool × KeyboardData :=
  let first := KeyboardData.loadNokiaKeyboard files KeyboardData.new (language ++ LayoutFileExtension)
  if !first.1 then
    KeyboardData.loadNokiaKeyboard files first.2 (QString.toLower language ++ LayoutFileExtension)
  else
    first

/-- Function `LayoutsManager::loadLanguage`: the boolean result and the manager afterwards. -/
def loadLanguage (files : LayoutFiles) (m : LayoutsManager) (language : String) :
    Bool × LayoutsManager :=
  if QString.isEmpty language then
    (false, m)
  else if !(loadAttempts files language).1 then
    (false, m)
  else
    -- Make sure entry for language exists. Create if it doesn't.
    let keyboards :=
      if (QMap.find m.keyboards (QString.toLower language)).isNone then
        QMap.insert m.keyboards (QString.toLower language) none
      else
        m.keyboards
    match QMap.find keyboards (QString.toLower language) with
    | some (some _) => (false, { m with keyboards := keyboards })
    | _ =>
      let assigned :=
        QMap.assign keyboards (QString.toLower language) (some (loadAttempts files language).2)
      (true, { m with keyboards := assigned })

/-- Whether the layout file of a language, `language + ".xml"`, loads. -/
def layoutFileLoads (files : LayoutFiles) (language : String) : Bool :=
  (files (language ++ LayoutFileExtension)).isSome

/-- One round of the "Add new ones" loop of `syncLanguages`, carrying the `changed` flag. -/
def addNewStep (files : LayoutFiles) (acc : Bool × LayoutsManager) (language : String) :
    Bool × LayoutsManager :=
  -- Existing languages are not reloaded.
  if !QMap.contains acc.2.keyboards (QString.toLower language) then
    if !(loadLanguage files acc.2 (QString.toLower language)).1 then
      (acc.1, (loadLanguage files acc.2 (QString.toLower language)).2)
    else
      (true, (loadLanguage files acc.2 (QString.toLower language)).2)
  else
    acc

/-- The "Add new ones" loop of `syncLanguages`. -/
def addNewLanguages (files : LayoutFiles) (newLanguages : List String)
    (start : Bool × LayoutsManager) : Bool × LayoutsManager :=
  newLanguages.foldl (addNewStep files) start

/-- One round of the "Remove old ones" loop of `syncLanguages`. -/
def removeOldStep (newLanguages : List String) (acc : Bool × LayoutsManager) (old : String) :
    Bool × LayoutsManager :=
  if !newLanguages.contains old then
    (true, { acc.2 with keyboards := QMap.remove acc.2.keyboards old })
  else
    acc

/-- The "Remove old ones" loop of `syncLanguages`. -/
def removeOldLanguages (oldLanguages newLanguages : List String)
    (start : Bool × LayoutsManager) : Bool × LayoutsManager :=
  oldLanguages.foldl (removeOldStep newLanguages) start

/-- The last step of `syncLanguages`: "Try FallbackLanguage if no languages loaded. Don't try to
load again if we already tried." -/
def tryFallbackLanguage (files : LayoutFiles) (newLanguages : List String)
    (start : Bool × LayoutsManager) : Bool × LayoutsManager :=
  if QMap.isEmpty start.2.keyboards && !newLanguages.contains FallbackLanguage then
    if (loadLanguage files start.2 FallbackLanguage).1 then
      (true, (loadLanguage files start.2 FallbackLanguage).2)
    else
      (start.1, (loadLanguage files start.2 FallbackLanguage).2)
  else
    start

/-- The list `newLanguages` of `syncLanguages`: the configured languages, empty when the setting
`configLanguages` is unset (`none`, a null `QVariant`). -/
def configuredLanguages (configLanguages : Option (List String)) : List String :=
  match configLanguages with
  | some languages => languages
  | none => []

/-- Function `LayoutsManager::syncLanguages`, for the value of the setting `configLanguages` at
the time of the call: whether `languagesChanged` is emitted, and the manager afterwards. -/
def syncLanguages (files : LayoutFiles) (configLanguages : Option (List String))
    (m : LayoutsManager) : Bool × LayoutsManager :=
  tryFallbackLanguage files (configuredLanguages configLanguages)
    (removeOldLanguages (languageList m) (configuredLanguages configLanguages)
      (addNewLanguages files (configuredLanguages configLanguages) (false, m)))

end LayoutsManager

/-- One call that changes the loaded-keyboards map, with the layout files and the setting as
they are when the call is made. -/
inductive ManagerCall where
  | loadLanguage (files : LayoutFiles) (language : String)
  | syncLanguages (files : LayoutFiles) (configLanguages : Option (List String))

/-- The manager after one call. -/
def ManagerCall.apply (m : LayoutsManager) : ManagerCall → LayoutsManager
  | ManagerCall.loadLanguage files language => (LayoutsManager.loadLanguage files m language).2
  | ManagerCall.syncLanguages files configLanguages =>
    (LayoutsManager.syncLanguages files configLanguages m).2

/-- The manager after a sequence of calls on a newly constructed manager. -/
def managerRun (calls : List ManagerCall) : LayoutsManager :=
  calls.foldl ManagerCall.apply LayoutsManager.init

/-! ## LayoutsManager: number, phone-number and hardware keyboards

The functions below load files into member keyboards and emit signals. What they do is kept in
a trace, in the order in which it happens. -/

/-- The three member keyboards of `LayoutsManager` that files are loaded into. -/
inductive KeyboardSlot where
  | hwKeyboard
  | numberKeyboard
  | phoneNumberKeyboard
  deriving DecidableEq, Repr

/-- The signals of `LayoutsManager` that the functions below emit. -/
inductive Signal where
  | numberFormatChanged
  | hardwareLayoutChanged
  deriving DecidableEq, Repr

/-- One observable step: a `loadNokiaKeyboard(fileName)` call on a member keyboard with its
result, an emitted signal, or the call of `syncHardwareKeyboard()` that `setXkbMap` makes. -/
inductive Event where
  | load (slot : KeyboardSlot) (fileName : String) (loaded : Bool)
  | emitted (signal : Signal)
  | syncHardwareKeyboardCalled
  deriving DecidableEq, Repr

/-- The manager together with the trace of what has been done so far. -/
structure Performed where
  manager : LayoutsManager
  trace : List Event
  deriving DecidableEq, Repr

/-- The file names of the load calls made on one member keyboard, in order. -/
def loadsInto (slot : KeyboardSlot) (trace : List Event) : List String :=
  trace.filterMap (fun event =>
    match event with
    | Event.load s fileName _ => if s = slot then some fileName else none
    | _ => none)

/-- How often a signal is emitted in a trace. -/
def emissions (signal : Signal) (trace : List Event) : Nat :=
  trace.count (Event.emitted signal)

/-- Constant `DefaultNumberFormat`. -/
def DefaultNumberFormat : String := "latin"

/-- Constant `NumberKeyboardFileArabic`. -/
def NumberKeyboardFileArabic : String := "number_ar.xml"

/-- Constant `NumberKeyboardFileLatin`. -/
def NumberKeyboardFileLatin : String := "number.xml"

/-- Constant `PhoneNumberKeyboardFileArabic`. -/
def PhoneNumberKeyboardFileArabic : String := "phonenumber_ar.xml"

/-- Constant `PhoneNumberKeyboardFileLatin`. -/
def PhoneNumberKeyboardFileLatin : String := "phonenumber.xml"

/-- Constant `PhoneNumberKeyboardFileRussian`. -/
def PhoneNumberKeyboardFileRussian : String := "phonenumber_ru.xml"

/-- Constant `SymbolKeyboardFileUs`. -/
def SymbolKeyboardFileUs : String := "hwsymbols_us.xml"

/-- Constant `SymbolKeyboardFileEuro`. -/
def SymbolKeyboardFileEuro : String := "hwsymbols_euro.xml"

/-- Constant `SymbolKeyboardFileArabic`. -/
def SymbolKeyboardFileArabic : String := "hwsymbols_arabic.xml"

/-- Constant `SymbolKeyboardFileChinese`. -/
def SymbolKeyboardFileChinese : String := "hwsymbols_chinese.xml"

namespace LayoutsManager

/-- The member keyboard of a slot. -/
def member (m : LayoutsManager) : KeyboardSlot → KeyboardData
  | KeyboardSlot.hwKeyboard => m.hwKeyboard
  | KeyboardSlot.numberKeyboard => m.numberKeyboard
  | KeyboardSlot.phoneNumberKeyboard => m.phoneNumberKeyboard

/-- The manager with a member keyboard replaced. -/
def setMember (m : LayoutsManager) (slot : KeyboardSlot) (keyboard : KeyboardData) :
    LayoutsManager :=
  match slot with
  | KeyboardSlot.hwKeyboard => { m with hwKeyboard := keyboard }
  | KeyboardSlot.numberKeyboard => { m with numberKeyboard := keyboard }
  | KeyboardSlot.phoneNumberKeyboard => { m with phoneNumberKeyboard := keyboard }

/-- A call `keyboard.loadNokiaKeyboard(fileName)` on a member keyboard: its boolean result, and
the manager and the trace after it. -/
def loadMember (files : LayoutFiles) (slot : KeyboardSlot) (fileName : String) (p : Performed) :
    Bool × Performed :=
  ((KeyboardData.loadNokiaKeyboard files (member p.manager slot) fileName).1,
   { manager := setMember p.manager slot
       (KeyboardData.loadNokiaKeyboard files (member p.manager slot) fileName).2
     trace := p.trace
       ++ [Event.load slot fileName
            (KeyboardData.loadNokiaKeyboard files (member p.manager slot) fileName).1] })

/-- The number format that `syncNumberKeyboards` first takes from the setting
`numberFormatSetting` (`none` when it is unset, where `DefaultNumberFormat` stands in): Arabic
for a value that is "arabic" once lowercased, Latin for every other value. -/
def numberFormatOfSetting (numberFormatSetting : Option String) : NumberFormat :=
  if "arabic" = QString.toLower (match numberFormatSetting with
      | some value => value
      | none => DefaultNumberFormat) then
    NumberFormat.NumArabic
  else
    NumberFormat.NumLatin

/-- The first half of `syncNumberKeyboards`: the number format and the number keyboard, with
the "Fall back to Latin if Arabic not available". -/
def syncNumberKeyboard (files : LayoutFiles) (numberFormatSetting : Option String)
    (p : Performed) : Performed :=
  let formatted : Performed :=
    { p with manager := { p.manager with numberFormat := numberFormatOfSetting numberFormatSetting } }
  let first := loadMember files KeyboardSlot.numberKeyboard
    (if formatted.manager.numberFormat = NumberFormat.NumLatin then NumberKeyboardFileLatin
     else NumberKeyboardFileArabic) formatted
  if !first.1 && decide (first.2.manager.numberFormat = NumberFormat.NumArabic) then
    (loadMember files KeyboardSlot.numberKeyboard NumberKeyboardFileLatin
      { first.2 with manager := { first.2.manager with numberFormat := NumberFormat.NumLatin } }).2
  else
    first.2

/-- The second half of `syncNumberKeyboards`, "Phone number keyboard", for the language of the
messages locale. -/
def syncPhoneNumberKeyboard (files : LayoutFiles) (messagesLanguage : String) (p : Performed) :
    Performed :=
  let attempt : Bool × Performed :=
    if p.manager.numberFormat = NumberFormat.NumArabic then
      loadMember files KeyboardSlot.phoneNumberKeyboard PhoneNumberKeyboardFileArabic p
    else if messagesLanguage = "ru" then
      loadMember files KeyboardSlot.phoneNumberKeyboard PhoneNumberKeyboardFileRussian p
    else
      (false, p)
  if !attempt.1 then
    (loadMember files KeyboardSlot.phoneNumberKeyboard PhoneNumberKeyboardFileLatin attempt.2).2
  else
    attempt.2

/-- Function `LayoutsManager::syncNumberKeyboards`, for the value of the number-format setting
and the language of the messages locale at the time of the call. -/
def syncNumberKeyboards (files : LayoutFiles) (numberFormatSetting : Option String)
    (messagesLanguage : String) (m : LayoutsManager) : Performed :=
  let synced := syncPhoneNumberKeyboard files messagesLanguage
    (syncNumberKeyboard files numberFormatSetting { manager := m, trace := [] })
  { synced with trace := synced.trace ++ [Event.emitted Signal.numberFormatChanged] }

/-- Function `LayoutsManager::xkbLayout`. -/
def xkbLayout (m : LayoutsManager) : String :=
  m.xkbCurrentLayout

/-- Function `LayoutsManager::xkbVariant`. -/
def xkbVariant (m : LayoutsManager) : String :=
  m.xkbCurrentVariant

/-- Function `LayoutsManager::symbolVariantFileName`. -/
def symbolVariantFileName : HardwareSymbolVariant → String
  | HardwareSymbolVariant.HwSymbolVariantUs => SymbolKeyboardFileUs
  | HardwareSymbolVariant.HwSymbolVariantArabic => SymbolKeyboardFileArabic
  | HardwareSymbolVariant.HwSymbolVariantChinese => SymbolKeyboardFileChinese
  | HardwareSymbolVariant.HwSymbolVariantEuro => SymbolKeyboardFileEuro
  | HardwareSymbolVariant.other _ => SymbolKeyboardFileEuro

/-- Function `LayoutsManager::syncHardwareKeyboard`. The function `xkbLayoutType` and the table
`HwkbLayoutToSymVariant` are declared outside the sources and are parameters here. -/
def syncHardwareKeyboard (files : LayoutFiles)
    (xkbLayoutType : String → HardwareKeyboardLayout)
    (HwkbLayoutToSymVariant : HardwareKeyboardLayout → HardwareSymbolVariant)
    (p : Performed) : Performed :=
  if xkbLayoutType (xkbLayout p.manager) = p.manager.currentHwkbLayoutType then
    p
  else
    let recorded : Performed :=
      { p with manager :=
          { p.manager with currentHwkbLayoutType := xkbLayoutType (xkbLayout p.manager) } }
    let loaded := loadMember files KeyboardSlot.hwKeyboard
      (symbolVariantFileName (HwkbLayoutToSymVariant (xkbLayoutType (xkbLayout p.manager))))
      recorded
    if loaded.1 then
      { loaded.2 with trace := loaded.2.trace ++ [Event.emitted Signal.hardwareLayoutChanged] }
    else
      loaded.2

/-- The two comparisons of `setXkbMap`: the `changed` flag and the manager with the members
`xkbCurrentLayout` and `xkbCurrentVariant` as they leave them. -/
def xkbMapChange (m : LayoutsManager) (layout variant : String) : Bool × LayoutsManager :=
  let first : Bool × LayoutsManager :=
    if layout ≠ m.xkbCurrentLayout then (true, { m with xkbCurrentLayout := layout })
    else (false, m)
  if variant ≠ first.2.xkbCurrentVariant then (true, { first.2 with xkbCurrentVariant := variant })
  else first

/-- Function `LayoutsManager::setXkbMap`. -/
def setXkbMap (files : LayoutFiles)
    (xkbLayoutType : String → HardwareKeyboardLayout)
    (HwkbLayoutToSymVariant : HardwareKeyboardLayout → HardwareSymbolVariant)
    (m : LayoutsManager) (layout variant : String) : Performed :=
  if (xkbMapChange m layout variant).1 then
    syncHardwareKeyboard files xkbLayoutType HwkbLayoutToSymVariant
      { manager := (xkbMapChange m layout variant).2
        trace := [Event.syncHardwareKeyboardCalled] }
  else
    { manager := (xkbMapChange m layout variant).2, trace := [] }

/-- The pointer that `LayoutsManager::layout` returns: `lm` after the statement
`if (!lm) lm = &empty`. -/
def layoutReturned (m : LayoutsManager) (language : String) (type : LayoutType)
    (orientation : Orientation) : Option LayoutData :=
  match layoutPointer m language type orientation with
  | some lm => some lm
  | none => some LayoutData.empty

end LayoutsManager

/-! ## Style (`style.cpp`)

Of the Qt library, what `loadImage` and `Style` call: the group stack and `value` of
`QSettings`, `QHash::value` / `insert` / `clear`, and loading a `QPixmap` from a file. -/

/-- A `QPixmap`; `data` is `none` for the null pixmap, and otherwise stands for the image. -/
structure QPixmap where
  data : Option Nat
  deriving DecidableEq, Repr

namespace QPixmap

/-- The default constructor `QPixmap()`: the null pixmap. -/
def null : QPixmap :=
  { data := none }

/-- Function `QPixmap::isNull()`. -/
def isNull (p : QPixmap) : Bool :=
  p.data.isNone

end QPixmap

/-- The image files at the time of a call: the pixmap that `QPixmap(fileName)` yields, the null
pixmap when the file is missing or is no image. -/
abbrev ImageFiles := String → QPixmap

/-- A `QSettings` object: the key/value entries of its INI file under their full keys
(`group/key`), and the stack of groups begun and not yet ended, innermost first. -/
structure QSettings where
  entries : List (String × String)
  groupStack : List String
  deriving DecidableEq, Repr

namespace QSettings

/-- The prefix that the begun groups put before every key: every non-empty group name followed
by a slash, outermost first. -/
def groupPrefix (s : QSettings) : String :=
  String.join (s.groupStack.reverse.map (fun g => if g.data.isEmpty then "" else g ++ "/"))

/-- Function `QSettings::group()`: the prefix without its last slash. -/
def group (s : QSettings) : String :=
  String.mk (groupPrefix s).data.dropLast

/-- Function `QSettings::beginGroup(prefix)`. -/
def beginGroup (s : QSettings) (groupName : String) : QSettings :=
  { s with groupStack := groupName :: s.groupStack }

/-- Function `QSettings::endGroup()`; without a begun group it only warns. -/
def endGroup (s : QSettings) : QSettings :=
  { s with groupStack := s.groupStack.tail }

/-- The `store->value(key).toString()` of the callers: the value under the current group
prefix, the empty string when there is none. -/
def value (s : QSettings) (key : String) : String :=
  match s.entries.find? (fun entry => decide (entry.1 = groupPrefix s ++ key)) with
  | some entry => entry.2
  | none => ""

/-- The value that the INI file holds for a key in a top-level group, the empty string when
there is none. -/
def valueInGroup (s : QSettings) (groupName key : String) : String :=
  match s.entries.find? (fun entry => decide (entry.1 = groupName ++ "/" ++ key)) with
  | some entry => entry.2
  | none => ""

end QSettings

/-- A `QHash<QString, QPixmap>`, as the list of its items. -/
abbrev QHash := List (String × QPixmap)

namespace QHash

/-- Function `QHash::value(key)`: a default-constructed (null) pixmap when the key is absent. -/
def value (h : QHash) (key : String) : QPixmap :=
  match h.find? (fun item => decide (item.1 = key)) with
  | some item => item.2
  | none => QPixmap.null

/-- Function `QHash::insert(key, value)`: replaces the item of an existing key. -/
def insert (h : QHash) (key : String) (image : QPixmap) : QHash :=
  (key, image) :: List.filter (fun item => !decide (item.1 = key)) h

end QHash

/-- A piece of a format string as `QString::arg` reads it: a plain character, or a place
marker (`%1` to `%99`, also written `%L1`) with its number and its own text. -/
inductive ArgPiece where
  | text (c : Char)
  | marker (number : Nat) (raw : List Char)
  deriving DecidableEq, Repr

/-- Where the reading of a format string stands: in plain text, after a `%`, after `%L`, or
after the first digit of a marker (with whether an `L` came before it). -/
inductive ArgScan where
  | plain
  | percent
  | percentL
  | digit (locale : Bool) (first : Char)
  deriving DecidableEq, Repr

namespace QString

/-- The value of a decimal digit, the `QChar::digitValue()` of the characters `0` to `9`. -/
def digitValue (c : Char) : Option Nat :=
  if c.isDigit then some (c.toNat - 48) else none

/-- The text of a marker whose first digit has been read. -/
def markerText (locale : Bool) (first : Char) : List Char :=
  if locale then ['%', 'L', first] else ['%', first]

/-- The number of a one-digit marker. -/
def firstDigit (first : Char) : Nat :=
  match digitValue first with
  | some d => d
  | none => 0

/-- The pieces of a format string, read as `findArgEscapes` reads it: a `%`, an optional `L`
and one or two digits make a marker; a `%` that no digit follows is plain text. -/
def argPieces : ArgScan → List Char → List ArgPiece
  | ArgScan.plain, [] => []
  | ArgScan.plain, c :: rest =>
    if c = '%' then argPieces ArgScan.percent rest
    else ArgPiece.text c :: argPieces ArgScan.plain rest
  | ArgScan.percent, [] => [ArgPiece.text '%']
  | ArgScan.percent, c :: rest =>
    if c = 'L' then argPieces ArgScan.percentL rest
    else if c.isDigit then argPieces (ArgScan.digit false c) rest
    else if c = '%' then ArgPiece.text '%' :: argPieces ArgScan.percent rest
    else ArgPiece.text '%' :: ArgPiece.text c :: argPieces ArgScan.plain rest
  | ArgScan.percentL, [] => [ArgPiece.text '%', ArgPiece.text 'L']
  | ArgScan.percentL, c :: rest =>
    if c.isDigit then argPieces (ArgScan.digit true c) rest
    else if c = '%' then
      ArgPiece.text '%' :: ArgPiece.text 'L' :: argPieces ArgScan.percent rest
    else
      ArgPiece.text '%' :: ArgPiece.text 'L' :: ArgPiece.text c :: argPieces ArgScan.plain rest
  | ArgScan.digit locale first, [] =>
    [ArgPiece.marker (firstDigit first) (markerText locale first)]
  | ArgScan.digit locale first, c :: rest =>
    match digitValue c with
    | some d =>
      ArgPiece.marker (10 * firstDigit first + d) (markerText locale first ++ [c])
        :: argPieces ArgScan.plain rest
    | none =>
      if c = '%' then
        ArgPiece.marker (firstDigit first) (markerText locale first)
          :: argPieces ArgScan.percent rest
      else
        ArgPiece.marker (firstDigit first) (markerText locale first)
          :: ArgPiece.text c :: argPieces ArgScan.plain rest

/-- The lowest marker number among the pieces, `none` when there is no marker. -/
def lowestMarker : List ArgPiece → Option Nat
  | [] => none
  | ArgPiece.text _ :: rest => lowestMarker rest
  | ArgPiece.marker number _ :: rest =>
    match lowestMarker rest with
    | some least => some (min number least)
    | none => some number

/-- The pieces put together again, with the text `a` in place of every marker of the given
number. -/
def fillMarkers (number : Nat) (a : List Char) : List ArgPiece → List Char
  | [] => []
  | ArgPiece.text c :: rest => c :: fillMarkers number a rest
  | ArgPiece.marker k raw :: rest =>
    (if k = number then a else raw) ++ fillMarkers number a rest

/-- Function `QString::arg(const QString &a)`: every occurrence of the lowest-numbered place
marker is replaced by `a`; a string without a marker is returned as it is. -/
def arg (format a : String) : String :=
  match lowestMarker (argPieces ArgScan.plain format.data) with
  | some number => String.mk (fillMarkers number a.data (argPieces ArgScan.plain format.data))
  | none => format

end QString

/-- Constant `background_format`. -/
def background_format : String := "background/%1%2"

/-- Constant `icon_format`. -/
def icon_format : String := "icon/%1%2"

/-- Enumeration `KeyDescription::Icon`. -/
inductive KeyIcon where
  | NoIcon
  | ReturnIcon
  | BackspaceIcon
  | ShiftIcon
  | ShiftLatchedIcon
  | CapsLockIcon
  deriving DecidableEq, Repr

/-- Enumeration `KeyDescription::Style`. -/
inductive KeyStyle where
  | NormalStyle
  | DeadkeyStyle
  | SpecialStyle
  deriving DecidableEq, Repr

/-- Enumeration `KeyDescription::State`. -/
inductive KeyState where
  | NormalState
  | PressedState
  | DisabledState
  | HighlightedState
  deriving DecidableEq, Repr

/-- Function `fromKeyIcon`. -/
def fromKeyIcon : KeyIcon → String
  | KeyIcon.NoIcon => ""
  | KeyIcon.ReturnIcon => "return"
  | KeyIcon.BackspaceIcon => "backspace"
  | KeyIcon.ShiftIcon => "shift"
  | KeyIcon.ShiftLatchedIcon => "shift-latched"
  | KeyIcon.CapsLockIcon => "caps-lock"

/-- Function `fromKeyStyle`. -/
def fromKeyStyle : KeyStyle → String
  | KeyStyle.NormalStyle => "normal"
  | KeyStyle.DeadkeyStyle => "dead"
  | KeyStyle.SpecialStyle => "special"

/-- Function `fromKeyState`. -/
def fromKeyState : KeyState → String
  | KeyState.NormalState => ""
  | KeyState.PressedState => "-pressed"
  | KeyState.DisabledState => "-disabled"
  | KeyState.HighlightedState => "-highlighted"

/-- The file name `image_filename_format.arg(images_dir).arg(value)` for the format "%1/%2".
The first argument is the build constant `MALIIT_KEYBOARD_IMAGES_DIR`, which the sources do not
give; it is taken to hold no place marker, so that the two `arg` calls put the directory and
the value around the slash. -/
def image_filename (images_dir value : String) : String :=
  images_dir ++ "/" ++ value

/-- The id `background_format.arg(fromKeyStyle(style)).arg(fromKeyState(state))` for the format
"background/%1%2"; the two arguments hold no place marker. -/
def backgroundId (style : KeyStyle) (state : KeyState) : String :=
  "background/" ++ fromKeyStyle style ++ fromKeyState state

/-- The id `icon_format.arg(fromKeyIcon(icon)).arg(fromKeyState(state))` for the format
"icon/%1%2"; the two arguments hold no place marker. -/
def iconId (icon : KeyIcon) (state : KeyState) : String :=
  "icon/" ++ fromKeyIcon icon ++ fromKeyState state

/-- What a call of `loadImage` leaves: the returned pixmap, the store and the cache. -/
structure LoadedImage where
  image : QPixmap
  store : Option QSettings
  cache : Option QHash
  deriving DecidableEq, Repr

/-- The "one-step lookup in default group" of `loadImage`: the group is left for "default", the
image is looked up there, and the group is begun again. -/
def lookupInDefaultGroup (images : ImageFiles) (images_dir id : String) (store : QSettings) :
    QPixmap × QSettings :=
  let group := store.group
  let inDefault := store.endGroup.beginGroup "default"
  let image := images (image_filename images_dir (inDefault.value id))
  (image, inDefault.endGroup.beginGroup group)

/-- Function `loadImage`. The store and the cache are pointers that may be null (`none`). -/
def loadImage (images : ImageFiles) (images_dir id : String) (store : Option QSettings)
    (cache : Option QHash) : LoadedImage :=
  let found : QPixmap :=
    match cache with
    | some c => QHash.value c id
    | none => QPixmap.null
  if !found.isNull then
    { image := found, store := store, cache := cache }
  else
    match store with
    | none => { image := QPixmap.null, store := store, cache := cache }
    | some st =>
      let first := images (image_filename images_dir (st.value id))
      let looked : QPixmap × QSettings :=
        if first.isNull then lookupInDefaultGroup images images_dir id st else (first, st)
      { image := looked.1
        store := some looked.2
        cache := cache.map (fun c => QHash.insert c id looked.1) }

/-- Class `StylePrivate`. -/
structure StylePrivate where
  name : String
  store : Option QSettings
  image_cache : QHash
  deriving DecidableEq, Repr

namespace Style

/-- The constructor `Style::Style`: no name, no store, an empty cache. -/
def new : StylePrivate :=
  { name := "", store := none, image_cache := [] }

/-- Function `Style::setProfile`: a new store on the profile's INI file, whose entries the
first argument gives by file name. The file name is
`profile_filename_format.arg(styles_dir).arg(profile)` for the format "%1/%2.ini", with
`styles_dir` the build constant `MALIIT_KEYBOARD_STYLES_DIR`, taken to hold no place marker. -/
def setProfile (iniFiles : String → List (String × String)) (styles_dir : String)
    (d : StylePrivate) (profile : String) : StylePrivate :=
  { d with store := some { entries := iniFiles (styles_dir ++ "/" ++ profile ++ ".ini"),
                           groupStack := [] } }

/-- Function `Style::setStyleName`; `none` when a new name is set without a store, where the
code goes through a null pointer. -/
def setStyleName (d : StylePrivate) (name : String) : Option StylePrivate :=
  if d.name ≠ name then
    match d.store with
    | none => none
    | some st =>
      some { name := name, store := some (st.endGroup.beginGroup name), image_cache := [] }
  else
    some d

/-- The members of the style after a `loadImage` call on its store and cache. -/
def afterLoad (d : StylePrivate) (r : LoadedImage) : StylePrivate :=
  { d with store := r.store
           image_cache := match r.cache with
             | some c => c
             | none => d.image_cache }

/-- Function `Style::keyBackground`: the pixmap, and the style with its store and its (mutable)
cache as the call leaves them. -/
def keyBackground (images : ImageFiles) (images_dir : String) (d : StylePrivate)
    (style : KeyStyle) (state : KeyState) : QPixmap × StylePrivate :=
  ((loadImage images images_dir (backgroundId style state) d.store (some d.image_cache)).image,
   afterLoad d (loadImage images images_dir (backgroundId style state) d.store
     (some d.image_cache)))

/-- Function `Style::icon`. -/
def icon (images : ImageFiles) (images_dir : String) (d : StylePrivate)
    (icon : KeyIcon) (state : KeyState) : QPixmap × StylePrivate :=
  ((loadImage images images_dir (iconId icon state) d.store (some d.image_cache)).image,
   afterLoad d (loadImage images images_dir (iconId icon state) d.store (some d.image_cache)))

end Style

/-! ## Sample data for concrete runs -/

/-- A layout with one section, as a layout file may describe it. -/
def sampleLayout (type : LayoutType) (orientation : Orientation) : LayoutData :=
  { layoutOrientation := orientation
    layoutType := type
    sections := [{ mMaxColumns := 1, maxRows := 1, movable := false, sectionName := "main",
                   sectionType := SectionType.Sloppy,
                   rows := [{ keys := [0], spacerIndices := [] }] }] }

/-- The keyboard that the layout file of a language yields in the sample runs. -/
def sampleKeyboard (language : String) : KeyboardData :=
  { language := language
    title := language
    autoCapsEnabled := true
    layouts := [sampleLayout LayoutType.General Orientation.Landscape] }

/-- Layout files for exactly the listed languages: `l + ".xml"` loads for each listed `l`, no
other file does. -/
def sampleFiles (languages : List String) : LayoutFiles :=
  fun fileName =>
    (languages.find? (fun l => decide (l ++ LayoutFileExtension = fileName))).map sampleKeyboard

/-- A manager in which the listed languages are loaded, each with its sample keyboard. -/
def sampleManager (languages : List String) : LayoutsManager :=
  { LayoutsManager.init with
    keyboards := languages.map (fun l => (l, some (sampleKeyboard l))) }

/-- A sample `xkbLayoutType`: the xkb layouts "us" and "ara" have a type of their own, every
other name is invalid. -/
def sampleXkbLayoutType : String → HardwareKeyboardLayout :=
  fun xkbName =>
    if xkbName = "us" then HardwareKeyboardLayout.layout 1
    else if xkbName = "ara" then HardwareKeyboardLayout.layout 2
    else HardwareKeyboardLayout.InvalidHardwareKeyboard

/-- A sample `HwkbLayoutToSymVariant` table for `sampleXkbLayoutType`. -/
def sampleSymVariant : HardwareKeyboardLayout → HardwareSymbolVariant
  | HardwareKeyboardLayout.layout 1 => HardwareSymbolVariant.HwSymbolVariantUs
  | HardwareKeyboardLayout.layout 2 => HardwareSymbolVariant.HwSymbolVariantArabic
  | _ => HardwareSymbolVariant.HwSymbolVariantEuro

/-- An INI store in the style group "blue": the background of a normal key has an entry in
"blue" and in "default", that of a pressed key only in "default", the return icon in neither. -/
def sampleStore : QSettings :=
  { entries := [("blue/background/normal", "blue-key.png"),
                ("default/background/normal", "key.png"),
                ("default/background/normal-pressed", "key-pressed.png"),
                ("blue/background/dead", "missing.png"),
                ("default/background/dead", "dead.png")]
    groupStack := ["blue"] }

/-- Image files under the directory "img": four files hold an image. -/
def sampleImages : ImageFiles :=
  fun fileName =>
    if fileName = "img/blue-key.png" then { data := some 1 }
    else if fileName = "img/key.png" then { data := some 2 }
    else if fileName = "img/key-pressed.png" then { data := some 3 }
    else if fileName = "img/dead.png" then { data := some 4 }
    else QPixmap.null

/-- A style named "blue" on the sample store, with an empty image cache. -/
def sampleStyle : StylePrivate :=
  { name := "blue", store := some sampleStore, image_cache := [] }

/-- Two profile files under the directory "styles": in p1.ini the group "blue" names
blue-key.png for the background of a normal key; in p2.ini it names key.png, and an entry
outside every group names dead.png. -/
def sampleProfiles : String → List (String × String) :=
  fun fileName =>
    if fileName = "styles/p1.ini" then [("blue/background/normal", "blue-key.png")]
    else if fileName = "styles/p2.ini" then
      [("blue/background/normal", "key.png"), ("background/normal", "dead.png")]
    else []

/-- The style after `setProfile("p1")`, `setStyleName("blue")`, `setProfile("p2")`,
`setStyleName("blue")` on a new style. -/
def styleAfterProfileChange : Option StylePrivate :=
  (Style.setStyleName (Style.setProfile sampleProfiles "styles" Style.new "p1") "blue").bind
    (fun d => Style.setStyleName (Style.setProfile sampleProfiles "styles" d "p2") "blue")

/-- The style after `setProfile("p1")`, `setStyleName("blue")`, a `keyBackground` call for a
normal key, `setProfile("p2")`, `setStyleName("blue")` on a new style. -/
def styleAfterLoadAndProfileChange : Option StylePrivate :=
  (Style.setStyleName (Style.setProfile sampleProfiles "styles" Style.new "p1") "blue").bind
    (fun d =>
      Style.setStyleName
        (Style.setProfile sampleProfiles "styles"
          (Style.keyBackground sampleImages "img" d KeyStyle.NormalStyle
            KeyState.NormalState).2 "p2")
        "blue")

/-! ## Properties of the touch-point counter -/

theorem touchInv_fresh (touchPointLimit : Nat) : TouchInv touchPointLimit MImKey.fresh := by
  refine ⟨le_refl _, ?_, ?_⟩
  · show (0 : Int) ≤ (touchPointLimit : Int)
    exact Int.ofNat_nonneg _
  · constructor
    · intro h
      cases h
    · intro h
      exact absurd h (lt_irrefl _)

theorem touchInv_step (touchPointLimit : Nat) (k : MImKey) (d : Direction)
    (h : TouchInv touchPointLimit k) : TouchInv touchPointLimit (touchStep touchPointLimit k d).2 := by
  obtain ⟨h0, h1, h2⟩ := h
  cases d with
  | Up =>
    unfold touchStep MImKey.increaseTouchPointCount
    by_cases hc : k.currentTouchPointCount + 1 ≤ (touchPointLimit : Int)
    · have hpos : 0 < k.currentTouchPointCount + 1 := by omega
      simp only [hc, if_true, hpos]
      unfold TouchInv
      dsimp only
      exact ⟨by omega, hc, by simp [hpos]⟩
    · simp only [hc, if_false]
      exact ⟨h0, h1, h2⟩
  | Down =>
    unfold touchStep MImKey.decreaseTouchPointCount
    by_cases hc : 0 ≤ k.currentTouchPointCount - 1
    · simp only [hc, if_true]
      unfold TouchInv
      dsimp only
      refine ⟨hc, by omega, ?_⟩
      by_cases hz : k.currentTouchPointCount - 1 = 0
      · simp [hz]
      · have hk : 0 < k.currentTouchPointCount := by omega
        have hp : 0 < k.currentTouchPointCount - 1 := by omega
        simp only [hz, if_false]
        constructor
        · intro _
          exact hp
        · intro _
          exact h2.mpr hk
    · simp only [hc, if_false]
      exact ⟨h0, h1, h2⟩

theorem touchInv_run (touchPointLimit : Nat) (calls : List Direction) (k : MImKey)
    (h : TouchInv touchPointLimit k) : TouchInv touchPointLimit (touchRun touchPointLimit k calls) := by
  induction calls generalizing k with
  | nil => exact h
  | cons d rest ih =>
    show TouchInv touchPointLimit (touchRun touchPointLimit (touchStep touchPointLimit k d).2 rest)
    exact ih _ (touchInv_step touchPointLimit k d h)

/-- C1: for a freshly constructed key, after every finite sequence of increaseTouchPointCount and
decreaseTouchPointCount calls the value of touchPointCount() lies in the closed range
[0, touchPointLimit()]; as the sequence is arbitrary this holds after each of its calls. -/
theorem touchPointCount_in_range (touchPointLimit : Nat) (calls : List Direction) :
    0 ≤ (touchRun touchPointLimit MImKey.fresh calls).touchPointCount ∧
      (touchRun touchPointLimit MImKey.fresh calls).touchPointCount ≤ (touchPointLimit : Int) := by
  have h := touchInv_run touchPointLimit calls MImKey.fresh (touchInv_fresh touchPointLimit)
  exact ⟨h.1, h.2.1⟩

/-- C2: the boolean result of a touch-count step tells whether the count moved. An increase
below the limit returns true and raises the count by exactly one; at the limit it returns false
and leaves the key as it was. A decrease above 0 returns true and lowers the count by exactly
one; at 0 it returns false and leaves the key as it was. -/
theorem touch_step_result (touchPointLimit : Nat) (k : MImKey) :
    (k.touchPointCount < (touchPointLimit : Int) →
        (MImKey.increaseTouchPointCount touchPointLimit k).1 = true ∧
        (MImKey.increaseTouchPointCount touchPointLimit k).2.touchPointCount
          = k.touchPointCount + 1) ∧
    (k.touchPointCount = (touchPointLimit : Int) →
        (MImKey.increaseTouchPointCount touchPointLimit k).1 = false ∧
        (MImKey.increaseTouchPointCount touchPointLimit k).2 = k) ∧
    (0 < k.touchPointCount →
        (MImKey.decreaseTouchPointCount k).1 = true ∧
        (MImKey.decreaseTouchPointCount k).2.touchPointCount = k.touchPointCount - 1) ∧
    (k.touchPointCount = 0 →
        (MImKey.decreaseTouchPointCount k).1 = false ∧
        (MImKey.decreaseTouchPointCount k).2 = k) := by
  unfold MImKey.touchPointCount
  refine ⟨?_, ?_, ?_, ?_⟩
  · intro h
    have hc : k.currentTouchPointCount + 1 ≤ (touchPointLimit : Int) := by omega
    simp [MImKey.increaseTouchPointCount, hc]
  · intro h
    have hc : ¬ k.currentTouchPointCount + 1 ≤ (touchPointLimit : Int) := by omega
    simp [MImKey.increaseTouchPointCount, hc]
  · intro h
    have hc : 0 ≤ k.currentTouchPointCount - 1 := by omega
    simp [MImKey.decreaseTouchPointCount, hc]
  · intro h
    have hc : ¬ 0 ≤ k.currentTouchPointCount - 1 := by omega
    simp [MImKey.decreaseTouchPointCount, hc]

/-- An instance of the C2 statement: a key holding one touch point, with limit 2, accepts an
increase and a decrease. -/
theorem touch_step_result_witness :
    (MImKey.increaseTouchPointCount 2 ⟨1, ButtonState.Pressed⟩).1 = true ∧
    (MImKey.increaseTouchPointCount 2 ⟨1, ButtonState.Pressed⟩).2.touchPointCount = 1 + 1 ∧
    (MImKey.decreaseTouchPointCount ⟨1, ButtonState.Pressed⟩).1 = true ∧
    (MImKey.decreaseTouchPointCount ⟨1, ButtonState.Pressed⟩).2.touchPointCount = 1 - 1 :=
  ⟨((touch_step_result 2 ⟨1, ButtonState.Pressed⟩).1 (by decide)).1,
   ((touch_step_result 2 ⟨1, ButtonState.Pressed⟩).1 (by decide)).2,
   ((touch_step_result 2 ⟨1, ButtonState.Pressed⟩).2.2.1 (by decide)).1,
   ((touch_step_result 2 ⟨1, ButtonState.Pressed⟩).2.2.1 (by decide)).2⟩

/-- C3: after every finite sequence of increaseTouchPointCount and decreaseTouchPointCount calls
on a fresh key, state() is Pressed exactly when touchPointCount() is greater than 0 and Normal
exactly when it is 0; a step that is rejected (result false) leaves the state as it was. -/
theorem state_pressed_iff_touched (touchPointLimit : Nat) (calls : List Direction) :
    ((touchRun touchPointLimit MImKey.fresh calls).state = ButtonState.Pressed ↔
        0 < (touchRun touchPointLimit MImKey.fresh calls).touchPointCount) ∧
    ((touchRun touchPointLimit MImKey.fresh calls).state = ButtonState.Normal ↔
        (touchRun touchPointLimit MImKey.fresh calls).touchPointCount = 0) ∧
    (∀ d : Direction,
        (touchStep touchPointLimit (touchRun touchPointLimit MImKey.fresh calls) d).1 = false →
        (touchStep touchPointLimit (touchRun touchPointLimit MImKey.fresh calls) d).2.state
          = (touchRun touchPointLimit MImKey.fresh calls).state) := by
  obtain ⟨h0, _, h2⟩ :=
    touchInv_run touchPointLimit calls MImKey.fresh (touchInv_fresh touchPointLimit)
  generalize touchRun touchPointLimit MImKey.fresh calls = k at h0 h2
  unfold MImKey.touchPointCount
  refine ⟨h2, ?_, ?_⟩
  · constructor
    · intro hn
      have hnp : ¬ 0 < k.currentTouchPointCount := by
        intro hp
        have := h2.mpr hp
        rw [hn] at this
        cases this
      omega
    · intro hz
      have hnp : ¬ k.state = ButtonState.Pressed := by
        intro hp
        have := h2.mp hp
        omega
      cases hs : k.state with
      | Normal => rfl
      | Pressed => exact absurd hs hnp
  · intro d hd
    cases d with
    | Up =>
      unfold touchStep MImKey.increaseTouchPointCount at hd ⊢
      by_cases hc : k.currentTouchPointCount + 1 ≤ (touchPointLimit : Int)
      · simp [hc] at hd
      · simp [hc]
    | Down =>
      unfold touchStep MImKey.decreaseTouchPointCount at hd ⊢
      by_cases hc : 0 ≤ k.currentTouchPointCount - 1
      · simp [hc] at hd
      · simp [hc]

/-- The rows of `Ut_KeyButton::testTouchPointCount_data`, run on the model with a limit of 5:
the boolean results, the final count and the final state are the expected ones. -/
theorem testTouchPointCount_rows :
    testTouchPointCount 5 0 [Direction.Up] = ([true], ⟨1, ButtonState.Pressed⟩) ∧
    testTouchPointCount 5 1 [Direction.Down] = ([true], ⟨0, ButtonState.Normal⟩) ∧
    testTouchPointCount 5 0 [Direction.Up, Direction.Down, Direction.Down]
      = ([true, true, false], ⟨0, ButtonState.Normal⟩) ∧
    testTouchPointCount 5 0 [Direction.Up, Direction.Down, Direction.Down, Direction.Up]
      = ([true, true, false, true], ⟨1, ButtonState.Pressed⟩) ∧
    testTouchPointCount 5 5 [Direction.Up] = ([false], ⟨5, ButtonState.Pressed⟩) ∧
    testTouchPointCount 5 5 [Direction.Up, Direction.Down, Direction.Down]
      = ([false, true, true], ⟨5 - 2, ButtonState.Pressed⟩) := by
  decide

/-! ## Facts about the Qt strings and maps -/

theorem Char.toNat_ofNat_of_small (n : Nat) (h : n < 55296) : (Char.ofNat n).toNat = n := by
  have hv : n.isValidChar := Or.inl h
  unfold Char.ofNat
  rw [dif_pos hv]
  rfl

theorem Char.toLower_idempotent (c : Char) : c.toLower.toLower = c.toLower := by
  unfold Char.toLower
  simp only []
  by_cases h : c.toNat ≥ 65 ∧ c.toNat ≤ 90
  · rw [if_pos h]
    have e : (Char.ofNat (c.toNat + 32)).toNat = c.toNat + 32 :=
      Char.toNat_ofNat_of_small _ (by omega)
    have h2 : ¬ ((Char.ofNat (c.toNat + 32)).toNat ≥ 65
        ∧ (Char.ofNat (c.toNat + 32)).toNat ≤ 90) := by
      rw [e]
      omega
    rw [if_neg h2]
  · rw [if_neg h, if_neg h]

theorem QString.toLower_toLower (s : String) :
    QString.toLower (QString.toLower s) = QString.toLower s := by
  unfold QString.toLower
  congr 1
  simp only [List.map_map]
  apply List.map_congr_left
  intro c _
  exact Char.toLower_idempotent c

theorem QString.isEmpty_iff (s : String) : QString.isEmpty s = true ↔ s = "" := by
  unfold QString.isEmpty
  constructor
  · intro h
    have : s.data = [] := List.isEmpty_iff.mp h
    cases s
    simp_all
  · intro h
    subst h
    rfl

theorem QString.toLower_eq_empty (s : String) : QString.toLower s = "" ↔ s = "" := by
  unfold QString.toLower
  constructor
  · intro h
    have h2 : s.data.map Char.toLower = [] := by
      have := congrArg String.data h
      simpa using this
    have h3 : s.data = [] := List.map_eq_nil_iff.mp h2
    cases s
    simp_all
  · intro h
    subst h
    rfl

theorem QString.lessThan_iff (a b : String) : QString.lessThan a b = true ↔ a < b := by
  unfold QString.lessThan
  rw [decide_eq_true_iff]
  exact String.lt_iff_toList_lt.symm

namespace QMap

variable {T : Type}

theorem find_eq_none_iff (m : QMap T) (key : String) :
    find m key = none ↔ key ∉ keys m := by
  induction m with
  | nil => simp [find, keys]
  | cons item rest ih =>
    obtain ⟨k, v⟩ := item
    unfold find
    by_cases h : k = key
    · simp [h, keys]
    · have h2 : ¬ key = k := fun e => h e.symm
      simp only [h, if_false, ih]
      simp [keys, h2]

theorem contains_iff (m : QMap T) (key : String) :
    contains m key = true ↔ key ∈ keys m := by
  unfold contains
  rw [Option.isSome_iff_ne_none, Ne, find_eq_none_iff, not_not]

theorem mem_keys_insert (m : QMap T) (key : String) (value : T) (k : String) :
    k ∈ keys (insert m key value) ↔ k = key ∨ k ∈ keys m := by
  induction m with
  | nil => simp [insert, keys]
  | cons item rest ih =>
    obtain ⟨k0, v0⟩ := item
    have ih2 : k ∈ List.map Prod.fst (insert rest key value)
        ↔ k = key ∨ k ∈ List.map Prod.fst rest := ih
    unfold insert
    cases h1 : QString.lessThan key k0 with
    | true =>
      simp only [if_true]
      simp only [keys, List.map_cons, List.mem_cons]
    | false =>
      by_cases h2 : k0 = key
      · simp only [h2, if_true, Bool.false_eq_true, if_false]
        simp only [keys, List.map_cons, List.mem_cons]
        tauto
      · simp only [h2, Bool.false_eq_true, if_false]
        simp only [keys, List.map_cons, List.mem_cons, ih2]
        tauto

theorem keys_assign (m : QMap T) (key : String) (value : T) :
    keys (assign m key value) = keys m := by
  induction m with
  | nil => rfl
  | cons item rest ih =>
    obtain ⟨k0, v0⟩ := item
    unfold assign
    by_cases h : k0 = key
    · simp [h, keys]
    · simp only [h, if_false]
      have ih2 : List.map Prod.fst (assign rest key value) = List.map Prod.fst rest := ih
      simp [keys, ih2]

theorem find_assign (m : QMap T) (key : String) (value : T) (h : key ∈ keys m) :
    find (assign m key value) key = some value := by
  induction m with
  | nil => simp [keys] at h
  | cons item rest ih =>
    obtain ⟨k0, v0⟩ := item
    unfold assign
    by_cases hk : k0 = key
    · simp [hk, find]
    · simp only [hk, if_false, find]
      apply ih
      have : key = k0 ∨ key ∈ keys rest := by simpa [keys] using h
      rcases this with e | e
      · exact absurd e.symm hk
      · exact e

theorem mem_keys_remove (m : QMap T) (key : String) (k : String) :
    k ∈ keys (remove m key) ↔ k ∈ keys m ∧ k ≠ key := by
  unfold remove keys
  simp only [List.mem_map, List.mem_filter]
  constructor
  · rintro ⟨item, ⟨hm, hf⟩, rfl⟩
    refine ⟨⟨item, hm, rfl⟩, ?_⟩
    simpa using hf
  · rintro ⟨⟨item, hm, rfl⟩, hne⟩
    exact ⟨item, ⟨hm, by simpa using hne⟩, rfl⟩

theorem keys_eq_nil_of_isEmpty (m : QMap T) (h : isEmpty m = true) : m = [] :=
  List.isEmpty_iff.mp h

theorem ordered_insert (m : QMap T) (key : String) (value : T) (h : Ordered m) :
    Ordered (insert m key value) := by
  induction m with
  | nil => simp [insert, Ordered, keys]
  | cons item rest ih =>
    obtain ⟨k0, v0⟩ := item
    have hp : (∀ k ∈ keys rest, k0 < k) ∧ Ordered rest := by
      simpa [Ordered, keys] using h
    unfold insert
    by_cases h1 : QString.lessThan key k0 = true
    · have hlt : key < k0 := (QString.lessThan_iff key k0).mp h1
      simp only [h1, if_true]
      show List.Pairwise _ (key :: k0 :: keys rest)
      refine List.Pairwise.cons ?_ h
      intro k hk
      rcases List.mem_cons.mp hk with e | e
      · rw [e]
        exact hlt
      · exact lt_trans hlt (hp.1 k e)
    · by_cases h2 : k0 = key
      · subst h2
        simp only [h1, if_true]
        exact h
      · simp only [h1, h2, if_false]
        have hnlt : ¬ key < k0 := fun c => h1 ((QString.lessThan_iff key k0).mpr c)
        have hgt : k0 < key := lt_of_le_of_ne (not_lt.mp hnlt) h2
        show List.Pairwise _ (k0 :: keys (insert rest key value))
        refine List.Pairwise.cons ?_ (ih hp.2)
        intro k hk
        rcases (mem_keys_insert rest key value k).mp hk with e | e
        · rw [e]
          exact hgt
        · exact hp.1 k e

theorem ordered_assign (m : QMap T) (key : String) (value : T) (h : Ordered m) :
    Ordered (assign m key value) := by
  unfold Ordered
  rw [keys_assign]
  exact h

theorem ordered_remove (m : QMap T) (key : String) (h : Ordered m) :
    Ordered (remove m key) := by
  unfold Ordered keys remove
  exact List.Pairwise.sublist (List.Sublist.map _ (List.filter_sublist _)) h

end QMap

theorem QMap.find_insert_self {T : Type} (m : QMap T) (key : String) (value : T) :
    QMap.find (QMap.insert m key value) key = some value := by
  induction m with
  | nil => simp [QMap.insert, QMap.find]
  | cons item rest ih =>
    obtain ⟨k0, v0⟩ := item
    unfold QMap.insert
    cases h1 : QString.lessThan key k0 with
    | true => simp [QMap.find]
    | false =>
      by_cases h2 : k0 = key
      · simp [h2, QMap.find]
      · simp [h2, QMap.find, ih]

namespace LayoutsManager

/-- The three ways in which `loadLanguage` gives up, and the map it builds otherwise. -/
theorem loadLanguage_cases (files : LayoutFiles) (m : LayoutsManager) (language : String) :
    (((QString.isEmpty language = true ∨ (loadAttempts files language).1 = false
          ∨ (keyboardByName m (QString.toLower language)).isSome = true)
        ∧ loadLanguage files m language = (false, m))
      ∨ ((QString.isEmpty language = false ∧ (loadAttempts files language).1 = true
          ∧ keyboardByName m (QString.toLower language) = none)
        ∧ (loadLanguage files m language).1 = true
        ∧ (∀ k, k ∈ languageList (loadLanguage files m language).2
              ↔ k = QString.toLower language ∨ k ∈ languageList m)
        ∧ keyboardByName (loadLanguage files m language).2 (QString.toLower language)
            = some (loadAttempts files language).2
        ∧ (QMap.Ordered m.keyboards → QMap.Ordered (loadLanguage files m language).2.keyboards))) := by
  unfold loadLanguage
  cases he : QString.isEmpty language with
  | true => exact Or.inl ⟨Or.inl rfl, by simp⟩
  | false =>
    cases hl : (loadAttempts files language).1 with
    | false => exact Or.inl ⟨Or.inr (Or.inl rfl), by simp⟩
    | true =>
      simp only [Bool.false_eq_true, if_false, Bool.not_true]
      cases hf : QMap.find m.keyboards (QString.toLower language) with
      | none =>
        refine Or.inr ⟨⟨by first | rfl | trivial, by first | rfl | trivial, by simp [keyboardByName, hf]⟩, ?_⟩
        simp only [Option.isNone_none, if_true, QMap.find_insert_self]
        refine ⟨by first | rfl | trivial, ?_, ?_, ?_⟩
        · intro k
          simp only [languageList, QMap.keys_assign]
          exact QMap.mem_keys_insert _ _ _ _
        · simp only [keyboardByName]
          rw [QMap.find_assign]
          exact (QMap.mem_keys_insert _ _ _ _).mpr (Or.inl rfl)
        · intro ho
          exact QMap.ordered_assign _ _ _ (QMap.ordered_insert _ _ _ ho)
      | some keyboard =>
        have hmem : QString.toLower language ∈ QMap.keys m.keyboards := by
          by_contra hc
          rw [(QMap.find_eq_none_iff _ _).mpr hc] at hf
          cases hf
        cases keyboard with
        | none =>
          refine Or.inr ⟨⟨by first | rfl | trivial, by first | rfl | trivial, by simp [keyboardByName, hf]⟩, ?_⟩
          simp only [Option.isNone_some, Bool.false_eq_true, if_false, hf]
          refine ⟨by first | rfl | trivial, ?_, ?_, ?_⟩
          · intro k
            simp only [languageList, QMap.keys_assign]
            constructor
            · intro h
              exact Or.inr h
            · rintro (h | h)
              · rw [h]
                exact hmem
              · exact h
          · simp only [keyboardByName]
            rw [QMap.find_assign _ _ _ hmem]
          · intro ho
            exact QMap.ordered_assign _ _ _ ho
        | some kb =>
          refine Or.inl ⟨Or.inr (Or.inr (by simp [keyboardByName, hf])), ?_⟩
          simp only [Option.isNone_some, Bool.false_eq_true, if_false, hf]

theorem loadAttempts_fst_eq_false (files : LayoutFiles) (language : String)
    (h1 : files (language ++ LayoutFileExtension) = none)
    (h2 : files (QString.toLower language ++ LayoutFileExtension) = none) :
    (loadAttempts files language).1 = false := by
  simp [loadAttempts, KeyboardData.loadNokiaKeyboard, h1, h2]

theorem loadAttempts_fst_eq_true (files : LayoutFiles) (language : String)
    (h : (files (QString.toLower language ++ LayoutFileExtension)).isSome = true) :
    (loadAttempts files language).1 = true := by
  obtain ⟨kb, hkb⟩ := Option.isSome_iff_exists.mp h
  unfold loadAttempts KeyboardData.loadNokiaKeyboard
  cases hf : files (language ++ LayoutFileExtension) with
  | none => simp [hkb]
  | some kb1 => simp

theorem loadAttempts_lower (files : LayoutFiles) (language : String) :
    (loadAttempts files (QString.toLower language)).1
      = (files (QString.toLower language ++ LayoutFileExtension)).isSome := by
  unfold loadAttempts KeyboardData.loadNokiaKeyboard
  rw [QString.toLower_toLower]
  cases hf : files (QString.toLower language ++ LayoutFileExtension) with
  | none => simp
  | some kb1 => simp

theorem loadLanguage_false_unchanged (files : LayoutFiles) (m : LayoutsManager)
    (language : String) (h : (loadLanguage files m language).1 = false) :
    (loadLanguage files m language).2 = m := by
  rcases loadLanguage_cases files m language with ⟨_, he⟩ | ⟨_, ht, _⟩
  · rw [he]
  · rw [ht] at h
    cases h

theorem mem_languageList_loadLanguage (files : LayoutFiles) (m : LayoutsManager)
    (language : String) (k : String) :
    k ∈ languageList (loadLanguage files m language).2
      ↔ k ∈ languageList m
        ∨ (k = QString.toLower language ∧ (loadLanguage files m language).1 = true) := by
  rcases loadLanguage_cases files m language with ⟨_, he⟩ | ⟨_, ht, hk, _⟩
  · rw [he]
    simp
  · rw [hk k, ht]
    simp only [and_true]
    exact Or.comm

theorem ordered_loadLanguage (files : LayoutFiles) (m : LayoutsManager) (language : String)
    (h : QMap.Ordered m.keyboards) : QMap.Ordered (loadLanguage files m language).2.keyboards := by
  rcases loadLanguage_cases files m language with ⟨_, he⟩ | ⟨_, _, _, _, ho⟩
  · rw [he]
    exact h
  · exact ho h

theorem loadLanguage_fst_iff (files : LayoutFiles) (m : LayoutsManager) (language : String) :
    (loadLanguage files m language).1 = true
      ↔ QString.isEmpty language = false ∧ (loadAttempts files language).1 = true
          ∧ keyboardByName m (QString.toLower language) = none := by
  rcases loadLanguage_cases files m language with ⟨hc, he⟩ | ⟨hc, ht, _⟩
  · rw [he]
    constructor
    · intro h
      cases h
    · rintro ⟨h1, h2, h3⟩
      rcases hc with h | h | h
      · rw [h1] at h
        cases h
      · rw [h2] at h
        cases h
      · rw [h3] at h
        cases h
  · exact ⟨fun _ => hc, fun _ => ht⟩

theorem keyboardByName_eq_none_of_not_mem (m : LayoutsManager) (language : String)
    (h : language ∉ languageList m) : keyboardByName m language = none := by
  unfold keyboardByName
  rw [(QMap.find_eq_none_iff _ _).mpr h]

theorem addNewStep_snd (files : LayoutFiles) (acc : Bool × LayoutsManager) (language : String) :
    (addNewStep files acc language).2
      = if QMap.contains acc.2.keyboards (QString.toLower language) = true then acc.2
        else (loadLanguage files acc.2 (QString.toLower language)).2 := by
  unfold addNewStep
  cases hc : QMap.contains acc.2.keyboards (QString.toLower language) with
  | true => simp
  | false =>
    cases hl : (loadLanguage files acc.2 (QString.toLower language)).1 with
    | true => simp
    | false => simp

theorem mem_languageList_addNewStep (files : LayoutFiles) (acc : Bool × LayoutsManager)
    (language : String) (k : String) :
    k ∈ languageList (addNewStep files acc language).2
      ↔ k ∈ languageList acc.2
        ∨ (k = QString.toLower language ∧ QString.toLower language ≠ ""
            ∧ layoutFileLoads files (QString.toLower language) = true) := by
  rw [addNewStep_snd]
  by_cases hc : QMap.contains acc.2.keyboards (QString.toLower language) = true
  · rw [if_pos hc]
    have hmem := (QMap.contains_iff _ _).mp hc
    constructor
    · intro h
      exact Or.inl h
    · rintro (h | ⟨h, _⟩)
      · exact h
      · rw [h]
        exact hmem
  · rw [if_neg hc]
    have hnot : QString.toLower language ∉ languageList acc.2 :=
      fun h => hc ((QMap.contains_iff _ _).mpr h)
    rw [mem_languageList_loadLanguage, loadLanguage_fst_iff, QString.toLower_toLower,
      loadAttempts_lower]
    have hnone := keyboardByName_eq_none_of_not_mem acc.2 _ hnot
    have hemp : QString.isEmpty (QString.toLower language) = false
        ↔ QString.toLower language ≠ "" := by
      rw [Ne, ← QString.isEmpty_iff]
      cases QString.isEmpty (QString.toLower language) <;> simp
    simp only [hnone, and_true, hemp, layoutFileLoads]

theorem mem_languageList_addNewLanguages (files : LayoutFiles) (newLanguages : List String)
    (start : Bool × LayoutsManager) (k : String) :
    k ∈ languageList (addNewLanguages files newLanguages start).2
      ↔ k ∈ languageList start.2
        ∨ ∃ language ∈ newLanguages, k = QString.toLower language
            ∧ QString.toLower language ≠ ""
            ∧ layoutFileLoads files (QString.toLower language) = true := by
  unfold addNewLanguages
  induction newLanguages generalizing start with
  | nil => simp
  | cons language rest ih =>
    rw [List.foldl_cons, ih, mem_languageList_addNewStep]
    simp only [List.mem_cons, exists_eq_or_imp]
    tauto

theorem mem_languageList_removeOldStep (newLanguages : List String)
    (acc : Bool × LayoutsManager) (old : String) (k : String) :
    k ∈ languageList (removeOldStep newLanguages acc old).2
      ↔ k ∈ languageList acc.2 ∧ (k = old → k ∈ newLanguages) := by
  unfold removeOldStep
  cases hc : newLanguages.contains old with
  | true =>
    have hmem : old ∈ newLanguages := by simpa using hc
    simp only [Bool.not_true, Bool.false_eq_true, if_false]
    constructor
    · intro h
      exact ⟨h, fun e => e ▸ hmem⟩
    · intro h
      exact h.1
  | false =>
    have hmem : old ∉ newLanguages := by simpa using hc
    simp only [Bool.not_false, if_true]
    have hrem : k ∈ languageList { acc.2 with keyboards := QMap.remove acc.2.keyboards old }
        ↔ k ∈ languageList acc.2 ∧ k ≠ old := QMap.mem_keys_remove _ _ _
    rw [hrem]
    constructor
    · rintro ⟨h1, h2⟩
      exact ⟨h1, fun e => absurd e h2⟩
    · rintro ⟨h1, h2⟩
      refine ⟨h1, fun e => hmem ?_⟩
      rw [← e]
      exact h2 e

theorem mem_languageList_removeOldLanguages (oldLanguages newLanguages : List String)
    (start : Bool × LayoutsManager) (k : String) :
    k ∈ languageList (removeOldLanguages oldLanguages newLanguages start).2
      ↔ k ∈ languageList start.2 ∧ (k ∈ oldLanguages → k ∈ newLanguages) := by
  unfold removeOldLanguages
  induction oldLanguages generalizing start with
  | nil => simp
  | cons old rest ih =>
    rw [List.foldl_cons, ih, mem_languageList_removeOldStep]
    simp only [List.mem_cons]
    tauto

theorem tryFallbackLanguage_snd (files : LayoutFiles) (newLanguages : List String)
    (start : Bool × LayoutsManager) :
    (tryFallbackLanguage files newLanguages start).2
      = if QMap.isEmpty start.2.keyboards = true ∧ FallbackLanguage ∉ newLanguages then
          (loadLanguage files start.2 FallbackLanguage).2
        else start.2 := by
  unfold tryFallbackLanguage
  by_cases h1 : QMap.isEmpty start.2.keyboards = true
  · by_cases h2 : FallbackLanguage ∈ newLanguages
    · have hc : newLanguages.contains FallbackLanguage = true := by simpa using h2
      simp [h1, h2, hc]
    · have hc : newLanguages.contains FallbackLanguage = false := by simpa using h2
      cases hl : (loadLanguage files start.2 FallbackLanguage).1 with
      | true => simp [h1, h2, hc, hl]
      | false => simp [h1, h2, hc, hl]
  · simp [h1]

/-- The languages in the map when the two loops of `syncLanguages` are done: the loaded ones
that the configured list names, and the lowercased configured ones that were not in the map,
are not empty and whose layout file loads. -/
theorem mem_languageList_loops (files : LayoutFiles) (newLanguages : List String)
    (m : LayoutsManager) (k : String) :
    k ∈ languageList (removeOldLanguages (languageList m) newLanguages
          (addNewLanguages files newLanguages (false, m))).2
      ↔ (k ∈ languageList m ∧ k ∈ newLanguages)
        ∨ (k ∉ languageList m ∧ ∃ language ∈ newLanguages, k = QString.toLower language
            ∧ QString.toLower language ≠ ""
            ∧ layoutFileLoads files (QString.toLower language) = true) := by
  rw [mem_languageList_removeOldLanguages, mem_languageList_addNewLanguages]
  by_cases hk : k ∈ languageList m
  · simp only [hk, true_or, true_and, not_true_eq_false, false_and, or_false, forall_true_left]
  · simp only [hk, false_or, false_and, not_false_eq_true, true_and, false_implies, implies_true,
      and_true]

theorem syncLanguages_snd (files : LayoutFiles) (configLanguages : Option (List String))
    (m : LayoutsManager) :
    (syncLanguages files configLanguages m).2
      = (tryFallbackLanguage files (configuredLanguages configLanguages)
          (removeOldLanguages (languageList m) (configuredLanguages configLanguages)
            (addNewLanguages files (configuredLanguages configLanguages) (false, m)))).2 :=
  rfl

theorem ordered_addNewLanguages (files : LayoutFiles) (newLanguages : List String)
    (start : Bool × LayoutsManager) (h : QMap.Ordered start.2.keyboards) :
    QMap.Ordered (addNewLanguages files newLanguages start).2.keyboards := by
  unfold addNewLanguages
  induction newLanguages generalizing start with
  | nil => exact h
  | cons language rest ih =>
    rw [List.foldl_cons]
    apply ih
    rw [addNewStep_snd]
    split
    · exact h
    · exact ordered_loadLanguage _ _ _ h

theorem ordered_removeOldLanguages (oldLanguages newLanguages : List String)
    (start : Bool × LayoutsManager) (h : QMap.Ordered start.2.keyboards) :
    QMap.Ordered (removeOldLanguages oldLanguages newLanguages start).2.keyboards := by
  unfold removeOldLanguages
  induction oldLanguages generalizing start with
  | nil => exact h
  | cons old rest ih =>
    rw [List.foldl_cons]
    apply ih
    unfold removeOldStep
    split
    · exact QMap.ordered_remove _ _ h
    · exact h

theorem ordered_syncLanguages (files : LayoutFiles) (configLanguages : Option (List String))
    (m : LayoutsManager) (h : QMap.Ordered m.keyboards) :
    QMap.Ordered (syncLanguages files configLanguages m).2.keyboards := by
  rw [syncLanguages_snd, tryFallbackLanguage_snd]
  have h2 := ordered_removeOldLanguages (languageList m) (configuredLanguages configLanguages) _
    (ordered_addNewLanguages files (configuredLanguages configLanguages) (false, m) h)
  split
  · exact ordered_loadLanguage _ _ _ h2
  · exact h2

theorem lowercase_syncLanguages (files : LayoutFiles) (configLanguages : Option (List String))
    (m : LayoutsManager) (h : ∀ k ∈ languageList m, k = QString.toLower k) :
    ∀ k ∈ languageList (syncLanguages files configLanguages m).2, k = QString.toLower k := by
  intro k hk
  rw [syncLanguages_snd, tryFallbackLanguage_snd] at hk
  have hloops : ∀ k' ∈ languageList (removeOldLanguages (languageList m)
      (configuredLanguages configLanguages)
      (addNewLanguages files (configuredLanguages configLanguages) (false, m))).2,
      k' = QString.toLower k' := by
    intro k' hk'
    rcases (mem_languageList_loops _ _ _ _).mp hk' with ⟨h1, _⟩ | ⟨_, language, _, h2, _⟩
    · exact h k' h1
    · rw [h2, QString.toLower_toLower]
  split at hk
  · rcases (mem_languageList_loadLanguage _ _ _ _).mp hk with h1 | ⟨h1, _⟩
    · exact hloops k h1
    · rw [h1, QString.toLower_toLower]
  · exact hloops k hk

end LayoutsManager

theorem managerRun_induction (P : LayoutsManager → Prop) (h0 : P LayoutsManager.init)
    (hstep : ∀ m call, P m → P (ManagerCall.apply m call)) (calls : List ManagerCall) :
    P (managerRun calls) := by
  unfold managerRun
  generalize LayoutsManager.init = m0 at h0
  induction calls generalizing m0 with
  | nil => exact h0
  | cons call rest ih =>
    rw [List.foldl_cons]
    exact ih _ (hstep m0 call h0)

theorem ordered_managerRun (calls : List ManagerCall) :
    QMap.Ordered (managerRun calls).keyboards := by
  apply managerRun_induction (fun m => QMap.Ordered m.keyboards)
  · exact List.Pairwise.nil
  · intro m call h
    cases call with
    | loadLanguage files language => exact LayoutsManager.ordered_loadLanguage _ _ _ h
    | syncLanguages files configLanguages => exact LayoutsManager.ordered_syncLanguages _ _ _ h

theorem lowercase_managerRun (calls : List ManagerCall) :
    ∀ k ∈ LayoutsManager.languageList (managerRun calls), k = QString.toLower k := by
  apply managerRun_induction
    (fun m => ∀ k ∈ LayoutsManager.languageList m, k = QString.toLower k)
  · intro k hk
    cases hk
  · intro m call h
    cases call with
    | loadLanguage files language =>
      intro k hk
      rcases (LayoutsManager.mem_languageList_loadLanguage _ _ _ _).mp hk with h1 | ⟨h1, _⟩
      · exact h k h1
      · rw [h1, QString.toLower_toLower]
    | syncLanguages files configLanguages =>
      exact LayoutsManager.lowercase_syncLanguages _ _ _ h

/-! ## Properties of LayoutsManager -/

open LayoutsManager

/-- C4, as the code has it: the by-language queries look up their argument as given, the
lowercasing is done when a language is loaded. A language loaded by loadLanguage(language) is
found under language.toLower(); and in a manager built by loadLanguage and syncLanguages calls
an argument that is not in lowercase finds nothing: keyboardByName gives the null pointer,
keyboardTitle and keyboardLanguage the empty string, autoCapsEnabled false, and layout (for types
other than Number and PhoneNumber) the empty LayoutData. -/
theorem queries_find_lowercase_names_only :
    (∀ (files : LayoutFiles) (m : LayoutsManager) (language : String),
        (loadLanguage files m language).1 = true →
        keyboardByName (loadLanguage files m language).2 (QString.toLower language)
          = some (loadAttempts files language).2) ∧
    (∀ (calls : List ManagerCall) (language : String),
        language ≠ QString.toLower language →
        keyboardByName (managerRun calls) language = none ∧
        keyboardTitle (managerRun calls) language = "" ∧
        keyboardLanguage (managerRun calls) language = "" ∧
        autoCapsEnabled (managerRun calls) language = false ∧
        (∀ (type : LayoutType) (orientation : Orientation),
          type ≠ LayoutType.Number → type ≠ LayoutType.PhoneNumber →
          layout (managerRun calls) language type orientation = LayoutData.empty)) := by
  constructor
  · intro files m language h
    rcases loadLanguage_cases files m language with ⟨_, he⟩ | ⟨_, _, _, hk, _⟩
    · rw [he] at h
      cases h
    · exact hk
  · intro calls language hne
    have hnot : language ∉ languageList (managerRun calls) :=
      fun hmem => hne (lowercase_managerRun calls language hmem)
    have hfind : QMap.find (managerRun calls).keyboards language = none :=
      (QMap.find_eq_none_iff _ _).mpr hnot
    have hnone : keyboardByName (managerRun calls) language = none := by
      unfold keyboardByName
      rw [hfind]
    refine ⟨hnone, ?_, ?_, ?_, ?_⟩
    · unfold keyboardTitle
      rw [hnone]
    · unfold keyboardLanguage
      rw [hnone]
    · unfold autoCapsEnabled
      rw [hnone]
    · intro type orientation h1 h2
      unfold layout layoutPointer
      rw [if_neg h1, if_neg h2, hfind]

/-- An instance of the amended C4 statement at the language "EN_GB": loading it puts its
keyboard under "en_gb", and a query for "EN_GB" finds nothing. -/
theorem queries_find_lowercase_names_only_witness :
    keyboardByName (loadLanguage (sampleFiles ["en_gb"]) LayoutsManager.init "EN_GB").2
        (QString.toLower "EN_GB")
      = some (loadAttempts (sampleFiles ["en_gb"]) "EN_GB").2 ∧
    keyboardByName
        (managerRun [ManagerCall.loadLanguage (sampleFiles ["en_gb"]) "EN_GB"]) "EN_GB" = none :=
  ⟨queries_find_lowercase_names_only.1 (sampleFiles ["en_gb"]) LayoutsManager.init "EN_GB"
      (by decide),
   (queries_find_lowercase_names_only.2
      [ManagerCall.loadLanguage (sampleFiles ["en_gb"]) "EN_GB"] "EN_GB" (by decide)).1⟩

/-- C4 as stated fails: in the manager constructed with the configured language "en_gb" (whose
file loads) the language "en_gb" is loaded, yet the queries with the argument "EN_GB" do not
look up "en_gb": they find nothing, while the same queries with "en_gb" find the keyboard. -/
theorem queries_do_not_lowercase :
    QString.toLower "EN_GB" = "en_gb" ∧
    languageList (managerRun [ManagerCall.syncLanguages (sampleFiles ["en_gb"]) (some ["en_gb"])])
      = ["en_gb"] ∧
    keyboardByName (managerRun [ManagerCall.syncLanguages (sampleFiles ["en_gb"]) (some ["en_gb"])])
      "en_gb" = some (sampleKeyboard "en_gb") ∧
    keyboardByName (managerRun [ManagerCall.syncLanguages (sampleFiles ["en_gb"]) (some ["en_gb"])])
      "EN_GB" = none ∧
    keyboardTitle (managerRun [ManagerCall.syncLanguages (sampleFiles ["en_gb"]) (some ["en_gb"])])
      "EN_GB" = "" ∧
    keyboardLanguage (managerRun [ManagerCall.syncLanguages (sampleFiles ["en_gb"]) (some ["en_gb"])])
      "EN_GB" = "" ∧
    autoCapsEnabled (managerRun [ManagerCall.syncLanguages (sampleFiles ["en_gb"]) (some ["en_gb"])])
      "en_gb" = true ∧
    autoCapsEnabled (managerRun [ManagerCall.syncLanguages (sampleFiles ["en_gb"]) (some ["en_gb"])])
      "EN_GB" = false ∧
    layout (managerRun [ManagerCall.syncLanguages (sampleFiles ["en_gb"]) (some ["en_gb"])])
      "en_gb" LayoutType.General Orientation.Landscape
      = sampleLayout LayoutType.General Orientation.Landscape ∧
    layout (managerRun [ManagerCall.syncLanguages (sampleFiles ["en_gb"]) (some ["en_gb"])])
      "EN_GB" LayoutType.General Orientation.Landscape = LayoutData.empty := by
  decide

/-- C5: every key of the loaded-keyboards map is lowercase. Starting from the empty map of a new
manager, after any sequence of loadLanguage and syncLanguages calls, with any arguments, any
configured language list and any outcome of file loading, every string in languageList() is
equal to its own toLower(). -/
theorem languageList_all_lowercase (calls : List ManagerCall) :
    ∀ language ∈ languageList (managerRun calls), language = QString.toLower language := by
  apply managerRun_induction
    (fun m => ∀ language ∈ languageList m, language = QString.toLower language)
  · intro language hmem
    cases hmem
  · intro m call hm
    cases call with
    | loadLanguage files loaded =>
      intro language hmem
      rcases (mem_languageList_loadLanguage files m loaded language).mp hmem with h | ⟨h, _⟩
      · exact hm language h
      · rw [h, QString.toLower_toLower]
    | syncLanguages files configLanguages =>
      exact lowercase_syncLanguages files configLanguages m hm

/-- An instance of the C5 statement: a manager constructed with the settings ["FI"], fi.xml
loadable, holds the language under the lowercase key "fi". -/
theorem languageList_all_lowercase_witness :
    "fi" ∈ languageList (managerRun [ManagerCall.syncLanguages (sampleFiles ["fi"]) (some ["FI"])]) ∧
    "fi" = QString.toLower "fi" :=
  ⟨by decide,
   languageList_all_lowercase [ManagerCall.syncLanguages (sampleFiles ["fi"]) (some ["FI"])]
     "fi" (by decide)⟩

/-- C8: languageList() gives the loaded languages in ascending order of QString comparison and
without duplicates, whatever calls (with whatever order and repetition in the configured list)
built the map; its length is languageCount(). -/
theorem languageList_ascending (calls : List ManagerCall) :
    List.Pairwise (fun a b => QString.lessThan a b = true) (languageList (managerRun calls)) ∧
    (languageList (managerRun calls)).Nodup ∧
    (languageList (managerRun calls)).length = languageCount (managerRun calls) := by
  have ho : List.Pairwise (fun a b : String => a < b) (languageList (managerRun calls)) :=
    ordered_managerRun calls
  refine ⟨?_, ?_, ?_⟩
  · exact ho.imp (fun h => (QString.lessThan_iff _ _).mpr h)
  · exact ho.imp (fun h => ne_of_lt h)
  · simp [languageList, languageCount, QMap.keys, QMap.count]

/-- C9: loadLanguage is atomic on failure. It returns false when the language is empty, when
neither language + ".xml" nor the lowercased language + ".xml" loads, and when the lowercased
language already has a keyboard; in each of these cases, and whenever it returns false, the
manager (so the loaded-keyboards map, keys and keyboards) is as before the call. When it returns
true the lowercased language is a key of the map afterwards. -/
theorem loadLanguage_atomic (files : LayoutFiles) (m : LayoutsManager) (language : String) :
    (QString.isEmpty language = true → loadLanguage files m language = (false, m)) ∧
    (files (language ++ LayoutFileExtension) = none →
      files (QString.toLower language ++ LayoutFileExtension) = none →
      loadLanguage files m language = (false, m)) ∧
    (keyboardByName m (QString.toLower language) ≠ none →
      loadLanguage files m language = (false, m)) ∧
    ((loadLanguage files m language).1 = false → (loadLanguage files m language).2 = m) ∧
    ((loadLanguage files m language).1 = true →
      QString.toLower language ∈ languageList (loadLanguage files m language).2) := by
  have hfalse : (loadLanguage files m language).1 = false →
      loadLanguage files m language = (false, m) := by
    intro h
    have h2 := loadLanguage_false_unchanged files m language h
    exact Prod.ext h h2
  have hnot : ¬ (loadLanguage files m language).1 = true →
      loadLanguage files m language = (false, m) := by
    intro h
    apply hfalse
    cases hb : (loadLanguage files m language).1 with
    | true => exact absurd hb h
    | false => rfl
  refine ⟨?_, ?_, ?_, ?_, ?_⟩
  · intro he
    apply hnot
    rw [loadLanguage_fst_iff, he]
    simp
  · intro h1 h2
    apply hnot
    rw [loadLanguage_fst_iff, loadAttempts_fst_eq_false files language h1 h2]
    simp
  · intro hk
    apply hnot
    rw [loadLanguage_fst_iff]
    intro h
    exact hk h.2.2
  · exact loadLanguage_false_unchanged files m language
  · intro ht
    rw [mem_languageList_loadLanguage]
    exact Or.inr ⟨rfl, ht⟩

/-- An instance of the C9 statement on a manager holding "fi", with only fi.xml loadable:
the empty language, the language "sv" without a file and the loaded language "FI" are all
refused and leave the manager as it was. -/
theorem loadLanguage_atomic_witness :
    loadLanguage (sampleFiles ["fi"]) (sampleManager ["fi"]) ""
      = (false, sampleManager ["fi"]) ∧
    loadLanguage (sampleFiles ["fi"]) (sampleManager ["fi"]) "sv"
      = (false, sampleManager ["fi"]) ∧
    loadLanguage (sampleFiles ["fi"]) (sampleManager ["fi"]) "FI"
      = (false, sampleManager ["fi"]) ∧
    QString.toLower "FI"
      ∈ languageList (loadLanguage (sampleFiles ["fi"]) LayoutsManager.init "FI").2 :=
  ⟨(loadLanguage_atomic (sampleFiles ["fi"]) (sampleManager ["fi"]) "").1 (by decide),
   (loadLanguage_atomic (sampleFiles ["fi"]) (sampleManager ["fi"]) "sv").2.1
     (by decide) (by decide),
   (loadLanguage_atomic (sampleFiles ["fi"]) (sampleManager ["fi"]) "FI").2.2.1 (by decide),
   (loadLanguage_atomic (sampleFiles ["fi"]) LayoutsManager.init "FI").2.2.2.2 (by decide)⟩

namespace LayoutsManager

theorem languageList_eq_nil_iff (m : LayoutsManager) : languageList m = [] ↔ m.keyboards = [] := by
  unfold languageList QMap.keys
  exact List.map_eq_nil_iff

theorem languageCount_pos_of_mem (m : LayoutsManager) (k : String) (h : k ∈ languageList m) :
    1 ≤ languageCount m := by
  have h2 : 0 < (languageList m).length := List.length_pos_of_mem h
  have h3 : (languageList m).length = languageCount m := by
    simp [languageList, languageCount, QMap.keys, QMap.count]
  omega

theorem languageList_loadLanguage_of_empty (files : LayoutFiles) (m : LayoutsManager)
    (language : String) (hk : m.keyboards = [])
    (ht : (loadLanguage files m language).1 = true) :
    languageList (loadLanguage files m language).2 = [QString.toLower language] := by
  have h := (loadLanguage_fst_iff files m language).mp ht
  unfold loadLanguage
  rw [h.1, h.2.1, hk]
  simp [QMap.find, QMap.insert, QMap.assign, languageList, QMap.keys]

theorem fallback_loads (files : LayoutFiles) (m : LayoutsManager)
    (hfile : layoutFileLoads files FallbackLanguage = true)
    (hnot : FallbackLanguage ∉ languageList m) :
    (loadLanguage files m FallbackLanguage).1 = true := by
  rw [loadLanguage_fst_iff]
  refine ⟨by decide, loadAttempts_fst_eq_true files FallbackLanguage hfile, ?_⟩
  exact keyboardByName_eq_none_of_not_mem m _ hnot

end LayoutsManager

/-- C6, as the code has it by design: for every prior state whose loaded languages are
lowercase (as loadLanguage and syncLanguages leave them) and every configured language list in
which a language whose lowercased name is already loaded is also listed in lowercase, and in
which at least one language, lowercased, is already loaded or has a non-empty name and a layout
file that loads: after syncLanguages() the languages in languageList() are exactly the
lowercased configured languages that were already loaded (they are kept, not reloaded) or
whose name is not empty and whose layout file loads. -/
theorem syncLanguages_follows_settings (files : LayoutFiles) (configured : List String)
    (m : LayoutsManager)
    (hkeys : ∀ k ∈ languageList m, QString.toLower k = k)
    (hlisted : ∀ language ∈ configured,
      QString.toLower language ∈ languageList m → QString.toLower language ∈ configured)
    (hsome : ∃ language ∈ configured,
      QString.toLower language ∈ languageList m
        ∨ (QString.toLower language ≠ ""
            ∧ layoutFileLoads files (QString.toLower language) = true)) :
    ∀ k, k ∈ languageList (syncLanguages files (some configured) m).2
      ↔ ∃ language ∈ configured, k = QString.toLower language
          ∧ (k ∈ languageList m ∨ (k ≠ "" ∧ layoutFileLoads files k = true)) := by
  have hloops : ∀ k, k ∈ languageList (removeOldLanguages (languageList m) configured
        (addNewLanguages files configured (false, m))).2
      ↔ ∃ language ∈ configured, k = QString.toLower language
          ∧ (k ∈ languageList m ∨ (k ≠ "" ∧ layoutFileLoads files k = true)) := by
    intro k
    rw [mem_languageList_loops]
    constructor
    · rintro (⟨h1, h2⟩ | ⟨_, language, h2, h3, h4, h5⟩)
      · exact ⟨k, h2, (hkeys k h1).symm, Or.inl h1⟩
      · refine ⟨language, h2, h3, Or.inr ?_⟩
        rw [h3]
        exact ⟨h4, h5⟩
    · rintro ⟨language, h1, h2, h3⟩
      by_cases hk : k ∈ languageList m
      · refine Or.inl ⟨hk, ?_⟩
        rw [h2] at hk ⊢
        exact hlisted language h1 hk
      · rcases h3 with h3 | ⟨h3, h4⟩
        · exact absurd h3 hk
        · refine Or.inr ⟨hk, language, h1, h2, ?_, ?_⟩
          · rw [← h2]
            exact h3
          · rw [← h2]
            exact h4
  intro k
  rw [syncLanguages_snd, tryFallbackLanguage_snd]
  have hne : ¬ (QMap.isEmpty (removeOldLanguages (languageList m) configured
      (addNewLanguages files configured (false, m))).2.keyboards = true
      ∧ FallbackLanguage ∉ configured) := by
    rintro ⟨he, _⟩
    obtain ⟨language, h1, h2⟩ := hsome
    have hmem := (hloops (QString.toLower language)).mpr ⟨language, h1, rfl, h2⟩
    have hnil := QMap.keys_eq_nil_of_isEmpty _ he
    rw [(languageList_eq_nil_iff _).mpr hnil] at hmem
    cases hmem
  have hc : configuredLanguages (some configured) = configured := rfl
  rw [hc, if_neg hne]
  exact hloops k

/-- An instance of the amended C6 statement for the settings ["fi", "SV", "xx"] on a manager
holding "de" and "fi", with the files of "fi" and "sv" loadable: "fi" is kept, the language
configured as "SV" is added as "sv", "de" is removed and "xx" is not loaded. -/
theorem syncLanguages_follows_settings_witness :
    "fi" ∈ languageList (syncLanguages (sampleFiles ["fi", "sv"]) (some ["fi", "SV", "xx"])
      (sampleManager ["de", "fi"])).2 ∧
    "sv" ∈ languageList (syncLanguages (sampleFiles ["fi", "sv"]) (some ["fi", "SV", "xx"])
      (sampleManager ["de", "fi"])).2 ∧
    "de" ∉ languageList (syncLanguages (sampleFiles ["fi", "sv"]) (some ["fi", "SV", "xx"])
      (sampleManager ["de", "fi"])).2 ∧
    "xx" ∉ languageList (syncLanguages (sampleFiles ["fi", "sv"]) (some ["fi", "SV", "xx"])
      (sampleManager ["de", "fi"])).2 :=
  ⟨(syncLanguages_follows_settings (sampleFiles ["fi", "sv"]) ["fi", "SV", "xx"]
      (sampleManager ["de", "fi"]) (by decide) (by decide)
      ⟨"fi", by decide, Or.inl (by decide)⟩ "fi").mpr
      ⟨"fi", by decide, by decide, Or.inl (by decide)⟩,
   (syncLanguages_follows_settings (sampleFiles ["fi", "sv"]) ["fi", "SV", "xx"]
      (sampleManager ["de", "fi"]) (by decide) (by decide)
      ⟨"fi", by decide, Or.inl (by decide)⟩ "sv").mpr
      ⟨"SV", by decide, by decide, Or.inr ⟨by decide, by decide⟩⟩,
   fun h => absurd ((syncLanguages_follows_settings (sampleFiles ["fi", "sv"])
      ["fi", "SV", "xx"] (sampleManager ["de", "fi"]) (by decide) (by decide)
      ⟨"fi", by decide, Or.inl (by decide)⟩ "de").mp h) (by decide),
   fun h => absurd ((syncLanguages_follows_settings (sampleFiles ["fi", "sv"])
      ["fi", "SV", "xx"] (sampleManager ["de", "fi"]) (by decide) (by decide)
      ⟨"fi", by decide, Or.inl (by decide)⟩ "xx").mp h) (by decide)⟩

/-- C6 as stated fails: with "xx" already loaded, the settings ["xx", "fi"] and only fi.xml
loadable, some configured layout file loads, yet after syncLanguages() the list is
["fi", "xx"]: "xx" stays although its layout file does not load, because existing languages are
not reloaded. -/
theorem syncLanguages_keeps_loaded_language :
    (∃ language ∈ ["xx", "fi"],
        layoutFileLoads (sampleFiles ["fi"]) (QString.toLower language) = true) ∧
    languageList (syncLanguages (sampleFiles ["fi"]) (some ["xx", "fi"])
        (sampleManager ["xx"])).2 = ["fi", "xx"] ∧
    ¬ (∀ k, k ∈ languageList (syncLanguages (sampleFiles ["fi"]) (some ["xx", "fi"])
          (sampleManager ["xx"])).2
        ↔ ∃ language ∈ ["xx", "fi"], k = QString.toLower language
            ∧ layoutFileLoads (sampleFiles ["fi"]) (QString.toLower language) = true) := by
  have hlist : languageList (syncLanguages (sampleFiles ["fi"]) (some ["xx", "fi"])
      (sampleManager ["xx"])).2 = ["fi", "xx"] := by decide
  refine ⟨⟨"fi", by decide, by decide⟩, hlist, ?_⟩
  intro h
  have hx := (h "xx").mp (by rw [hlist]; decide)
  obtain ⟨language, h1, h2, h3⟩ := hx
  have h4 : language = "xx" ∨ language = "fi" := by simpa using h1
  rcases h4 with h4 | h4
  · subst h4
    exact absurd h3 (by decide)
  · subst h4
    exact absurd h2 (by decide)

/-- The removal loop compares the lowercase keys with the configured names as written: with
"en_gb" loaded and the settings ["EN_GB", "fi"] (both files loadable), syncLanguages() drops
"en_gb" and leaves ["fi"]. -/
theorem syncLanguages_mixed_case_settings :
    languageList (syncLanguages (sampleFiles ["en_gb", "fi"]) (some ["EN_GB", "fi"])
        (sampleManager ["en_gb"])).2 = ["fi"] := by
  decide

theorem fallback_after_loops (files : LayoutFiles) (configured : List String)
    (m s2 : LayoutsManager) (hfile : layoutFileLoads files FallbackLanguage = true)
    (hloops : ∀ k, k ∈ languageList s2
      ↔ (k ∈ languageList m ∧ k ∈ configured)
        ∨ (k ∉ languageList m ∧ ∃ language ∈ configured, k = QString.toLower language
            ∧ QString.toLower language ≠ ""
            ∧ layoutFileLoads files (QString.toLower language) = true)) :
    1 ≤ languageCount (if QMap.isEmpty s2.keyboards = true ∧ FallbackLanguage ∉ configured then
          (loadLanguage files s2 FallbackLanguage).2 else s2) ∧
    (FallbackLanguage ∉ configured →
      (∀ language ∈ configured, layoutFileLoads files (QString.toLower language) = false) →
      (∀ k ∈ languageList m, ∀ language ∈ configured,
        QString.toLower language ≠ QString.toLower k) →
      languageList (if QMap.isEmpty s2.keyboards = true ∧ FallbackLanguage ∉ configured then
          (loadLanguage files s2 FallbackLanguage).2 else s2) = [FallbackLanguage]) := by
  constructor
  · by_cases hc : QMap.isEmpty s2.keyboards = true ∧ FallbackLanguage ∉ configured
    · rw [if_pos hc]
      have hnil : s2.keyboards = [] := QMap.keys_eq_nil_of_isEmpty _ hc.1
      have hnot : FallbackLanguage ∉ languageList s2 := by
        rw [(languageList_eq_nil_iff s2).mpr hnil]
        exact List.not_mem_nil _
      have ht := fallback_loads files s2 hfile hnot
      apply languageCount_pos_of_mem _ FallbackLanguage
      rw [mem_languageList_loadLanguage]
      exact Or.inr ⟨rfl, ht⟩
    · rw [if_neg hc]
      by_cases he : QMap.isEmpty s2.keyboards = true
      · have hin : FallbackLanguage ∈ configured := by
          by_contra hcon
          exact hc ⟨he, hcon⟩
        apply languageCount_pos_of_mem _ FallbackLanguage
        rw [hloops]
        by_cases hm : FallbackLanguage ∈ languageList m
        · exact Or.inl ⟨hm, hin⟩
        · exact Or.inr ⟨hm, FallbackLanguage, hin, rfl, by decide, hfile⟩
      · cases hk : s2.keyboards with
        | nil =>
          rw [hk] at he
          exact absurd rfl he
        | cons item rest =>
          apply languageCount_pos_of_mem _ item.1
          unfold languageList QMap.keys
          rw [hk]
          exact List.mem_cons_self _ _
  · intro h1 h2 h3
    have hempty : languageList s2 = [] := by
      apply List.eq_nil_iff_forall_not_mem.mpr
      intro k hk
      rcases (hloops k).mp hk with ⟨h4, h5⟩ | ⟨_, language, h5, _, _, h6⟩
      · exact h3 k h4 k h5 rfl
      · rw [h2 language h5] at h6
        cases h6
    have hnil : s2.keyboards = [] := (languageList_eq_nil_iff s2).mp hempty
    have hc : QMap.isEmpty s2.keyboards = true ∧ FallbackLanguage ∉ configured := by
      refine ⟨?_, h1⟩
      rw [hnil]
      rfl
    rw [if_pos hc]
    have hnot : FallbackLanguage ∉ languageList s2 := by
      rw [hempty]
      exact List.not_mem_nil _
    exact languageList_loadLanguage_of_empty files s2 FallbackLanguage hnil
      (fallback_loads files s2 hfile hnot)

/-- C7, as the code has it: for every prior state and every configured language list (also an
unset one), if en_gb.xml can be loaded then languageCount() is at least 1 after
syncLanguages(); and when moreover the list does not contain "en_gb", no configured language's
layout file loads and no configured language is among the already loaded ones (in any letter
case), languageList() is exactly ["en_gb"]. -/
theorem syncLanguages_fallback (files : LayoutFiles) (configLanguages : Option (List String))
    (m : LayoutsManager) (hfile : layoutFileLoads files FallbackLanguage = true) :
    1 ≤ languageCount (syncLanguages files configLanguages m).2 ∧
    (FallbackLanguage ∉ configuredLanguages configLanguages →
      (∀ language ∈ configuredLanguages configLanguages,
        layoutFileLoads files (QString.toLower language) = false) →
      (∀ k ∈ languageList m, ∀ language ∈ configuredLanguages configLanguages,
        QString.toLower language ≠ QString.toLower k) →
      languageList (syncLanguages files configLanguages m).2 = [FallbackLanguage]) := by
  rw [syncLanguages_snd, tryFallbackLanguage_snd]
  exact fallback_after_loops files (configuredLanguages configLanguages) m _ hfile
    (mem_languageList_loops files (configuredLanguages configLanguages) m)

/-- An instance of the amended C7 statement with "de" loaded, the settings ["sv"] and only
en_gb.xml loadable: "de" is removed, "sv" does not load, and the list is ["en_gb"]. -/
theorem syncLanguages_fallback_witness :
    1 ≤ languageCount (syncLanguages (sampleFiles ["en_gb"]) (some ["sv"])
        (sampleManager ["de"])).2 ∧
    languageList (syncLanguages (sampleFiles ["en_gb"]) (some ["sv"])
        (sampleManager ["de"])).2 = [FallbackLanguage] :=
  ⟨(syncLanguages_fallback (sampleFiles ["en_gb"]) (some ["sv"]) (sampleManager ["de"])
      (by decide)).1,
   (syncLanguages_fallback (sampleFiles ["en_gb"]) (some ["sv"]) (sampleManager ["de"])
      (by decide)).2 (by decide) (by decide) (by decide)⟩

/-- C7 as stated fails in its second part: with "fi" already loaded, the settings ["fi"] and
only en_gb.xml loadable, en_gb.xml can be loaded, no configured language's file loads and the
list does not contain "en_gb", yet languageList() after syncLanguages() is ["fi"], not
["en_gb"]: the loaded language is kept without being reloaded. -/
theorem syncLanguages_no_fallback_when_loaded :
    layoutFileLoads (sampleFiles ["en_gb"]) FallbackLanguage = true ∧
    (∀ language ∈ ["fi"],
      layoutFileLoads (sampleFiles ["en_gb"]) (QString.toLower language) = false) ∧
    FallbackLanguage ∉ ["fi"] ∧
    languageList (syncLanguages (sampleFiles ["en_gb"]) (some ["fi"])
      (sampleManager ["fi"])).2 = ["fi"] ∧
    languageList (syncLanguages (sampleFiles ["en_gb"]) (some ["fi"])
      (sampleManager ["fi"])).2 ≠ ["en_gb"] := by
  decide

/-! ## Properties of Style image loading -/

theorem QSettings.value_in_default (st : QSettings) (id : String)
    (hdepth : st.groupStack.length ≤ 1) :
    (st.endGroup.beginGroup "default").value id = st.valueInGroup "default" id := by
  have htail : st.groupStack.tail = [] := by
    cases hs : st.groupStack with
    | nil => rfl
    | cons g rest =>
      rw [hs] at hdepth
      cases rest with
      | nil => rfl
      | cons g2 rest2 =>
        simp at hdepth
  have hpre : (st.endGroup.beginGroup "default").groupPrefix = "default" ++ "/" := by
    unfold QSettings.endGroup QSettings.beginGroup QSettings.groupPrefix
    simp only [htail]
    rfl
  unfold QSettings.value QSettings.valueInGroup
  rw [hpre]
  rfl

theorem QSettings.restored_depth (st : QSettings) (groupName other : String)
    (hdepth : st.groupStack.length ≤ 1) :
    (((st.endGroup.beginGroup other).endGroup.beginGroup groupName).groupStack).length ≤ 1 := by
  unfold QSettings.endGroup QSettings.beginGroup
  cases hs : st.groupStack with
  | nil => simp
  | cons g rest =>
    rw [hs] at hdepth
    cases rest with
    | nil => simp
    | cons g2 rest2 => simp at hdepth

theorem loadImage_image (images : ImageFiles) (images_dir id : String) (st : QSettings)
    (cache : Option QHash)
    (hmiss : ∀ c, cache = some c → (QHash.value c id).isNull = true) :
    (loadImage images images_dir id (some st) cache).image
      = if (images (image_filename images_dir (st.value id))).isNull = true then
          images (image_filename images_dir ((st.endGroup.beginGroup "default").value id))
        else
          images (image_filename images_dir (st.value id)) := by
  have hfound : (match cache with
      | some c => QHash.value c id
      | none => QPixmap.null).isNull = true := by
    cases cache with
    | none => rfl
    | some c => exact hmiss c rfl
  unfold loadImage
  simp only [hfound, Bool.not_true, Bool.false_eq_true, if_false]
  by_cases hn : (images (image_filename images_dir (st.value id))).isNull = true
  · simp only [hn, if_true, lookupInDefaultGroup]
  · simp only [hn, if_false, Bool.false_eq_true]

/-- The store of a style keeps at most one begun group: `setProfile` gives a store without a
group, and `setStyleName` and `loadImage` leave at most one when they find at most one. -/
theorem style_store_depth (images : ImageFiles) (images_dir id : String)
    (iniFiles : String → List (String × String)) (styles_dir profile name : String)
    (d d2 : StylePrivate) (st st2 : QSettings) (cache : Option QHash) :
    (∀ st3, (Style.setProfile iniFiles styles_dir d profile).store = some st3 →
      st3.groupStack.length ≤ 1) ∧
    (d.store = some st → st.groupStack.length ≤ 1 → Style.setStyleName d name = some d2 →
      d2.store = some st2 → st2.groupStack.length ≤ 1) ∧
    (st.groupStack.length ≤ 1 →
      (loadImage images images_dir id (some st) cache).store = some st2 →
      st2.groupStack.length ≤ 1) := by
  refine ⟨?_, ?_, ?_⟩
  · intro st3 h
    unfold Style.setProfile at h
    simp only [Option.some.injEq] at h
    rw [← h]
    simp
  · intro hs hdepth hset hs2
    unfold Style.setStyleName at hset
    by_cases hn : d.name ≠ name
    · rw [if_pos hn, hs] at hset
      simp only [Option.some.injEq] at hset
      rw [← hset] at hs2
      simp only [Option.some.injEq] at hs2
      rw [← hs2]
      unfold QSettings.endGroup QSettings.beginGroup
      cases hg : st.groupStack with
      | nil => simp
      | cons g rest =>
        rw [hg] at hdepth
        cases rest with
        | nil => simp
        | cons g2 rest2 => simp at hdepth
    · rw [if_neg hn] at hset
      simp only [Option.some.injEq] at hset
      rw [← hset, hs] at hs2
      simp only [Option.some.injEq] at hs2
      rw [← hs2]
      exact hdepth
  · intro hdepth hl
    have hstore : (loadImage images images_dir id (some st) cache).store = some st
        ∨ (loadImage images images_dir id (some st) cache).store
            = some (lookupInDefaultGroup images images_dir id st).2 := by
      unfold loadImage
      dsimp only
      split_ifs
      · exact Or.inl rfl
      · exact Or.inr rfl
      · exact Or.inl rfl
    rcases hstore with h | h
    · rw [h] at hl
      simp only [Option.some.injEq] at hl
      rw [← hl]
      exact hdepth
    · rw [h] at hl
      simp only [Option.some.injEq] at hl
      rw [← hl]
      exact QSettings.restored_depth st _ _ hdepth

/-- C10: theme images fall back to the "default" group. For a store in its style group (at most
one group begun) and every image id that the cache does not hold with a non-null image,
loadImage returns the image named by the store's value for the id in the current group when
that image is not null, and otherwise the image named by the value of the same id in the group
"default", which is null only when that one is missing too; Style::keyBackground and Style::icon
return just that for their ids. -/
theorem loadImage_falls_back_to_default (images : ImageFiles) (images_dir : String)
    (st : QSettings) (hdepth : st.groupStack.length ≤ 1) :
    (∀ (id : String) (cache : Option QHash),
      (∀ c, cache = some c → (QHash.value c id).isNull = true) →
      (loadImage images images_dir id (some st) cache).image
        = if (images (image_filename images_dir (st.value id))).isNull = true then
            images (image_filename images_dir (st.valueInGroup "default" id))
          else
            images (image_filename images_dir (st.value id))) ∧
    (∀ (d : StylePrivate) (style : KeyStyle) (state : KeyState),
      d.store = some st →
      (QHash.value d.image_cache (backgroundId style state)).isNull = true →
      (Style.keyBackground images images_dir d style state).1
        = if (images (image_filename images_dir
              (st.value (backgroundId style state)))).isNull = true then
            images (image_filename images_dir
              (st.valueInGroup "default" (backgroundId style state)))
          else
            images (image_filename images_dir (st.value (backgroundId style state)))) ∧
    (∀ (d : StylePrivate) (icon : KeyIcon) (state : KeyState),
      d.store = some st →
      (QHash.value d.image_cache (iconId icon state)).isNull = true →
      (Style.icon images images_dir d icon state).1
        = if (images (image_filename images_dir (st.value (iconId icon state)))).isNull = true then
            images (image_filename images_dir (st.valueInGroup "default" (iconId icon state)))
          else
            images (image_filename images_dir (st.value (iconId icon state)))) := by
  have hload : ∀ (id : String) (cache : Option QHash),
      (∀ c, cache = some c → (QHash.value c id).isNull = true) →
      (loadImage images images_dir id (some st) cache).image
        = if (images (image_filename images_dir (st.value id))).isNull = true then
            images (image_filename images_dir (st.valueInGroup "default" id))
          else
            images (image_filename images_dir (st.value id)) := by
    intro id cache hmiss
    rw [loadImage_image images images_dir id st cache hmiss,
      QSettings.value_in_default st id hdepth]
  refine ⟨hload, ?_, ?_⟩
  · intro d style state hs hmiss
    unfold Style.keyBackground
    rw [hs]
    apply hload
    intro c hc
    simp only [Option.some.injEq] at hc
    rw [← hc]
    exact hmiss
  · intro d icon state hs hmiss
    unfold Style.icon
    rw [hs]
    apply hload
    intro c hc
    simp only [Option.some.injEq] at hc
    rw [← hc]
    exact hmiss

/-- An instance of the C10 statement on the sample style "blue": the
background of a normal key comes from the "blue" group, that of a pressed key (no entry in
"blue") and that of a dead key (entry in "blue" without an image file) from "default", and the
return icon, in neither group, is the null pixmap. -/
theorem loadImage_falls_back_to_default_witness :
    (Style.keyBackground sampleImages "img" sampleStyle KeyStyle.NormalStyle
        KeyState.NormalState).1 = { data := some 1 } ∧
    (Style.keyBackground sampleImages "img" sampleStyle KeyStyle.NormalStyle
        KeyState.PressedState).1 = { data := some 3 } ∧
    (Style.keyBackground sampleImages "img" sampleStyle KeyStyle.DeadkeyStyle
        KeyState.NormalState).1 = { data := some 4 } ∧
    (Style.icon sampleImages "img" sampleStyle KeyIcon.ReturnIcon KeyState.NormalState).1
      = QPixmap.null :=
  ⟨((loadImage_falls_back_to_default sampleImages "img" sampleStore (by decide)).2.1
      sampleStyle KeyStyle.NormalStyle KeyState.NormalState rfl (by decide)).trans (by decide),
   ((loadImage_falls_back_to_default sampleImages "img" sampleStore (by decide)).2.1
      sampleStyle KeyStyle.NormalStyle KeyState.PressedState rfl (by decide)).trans (by decide),
   ((loadImage_falls_back_to_default sampleImages "img" sampleStore (by decide)).2.1
      sampleStyle KeyStyle.DeadkeyStyle KeyState.NormalState rfl (by decide)).trans (by decide),
   ((loadImage_falls_back_to_default sampleImages "img" sampleStore (by decide)).2.2
      sampleStyle KeyIcon.ReturnIcon KeyState.NormalState rfl (by decide)).trans (by decide)⟩

/-! ## Properties of the number, phone-number and hardware keyboards -/

namespace LayoutsManager

theorem loadNokiaKeyboard_fst (files : LayoutFiles) (kb : KeyboardData) (fileName : String) :
    (KeyboardData.loadNokiaKeyboard files kb fileName).1 = (files fileName).isSome := by
  unfold KeyboardData.loadNokiaKeyboard
  cases files fileName <;> rfl

theorem loadMember_fst (files : LayoutFiles) (slot : KeyboardSlot) (fileName : String)
    (p : Performed) : (loadMember files slot fileName p).1 = (files fileName).isSome :=
  loadNokiaKeyboard_fst files _ fileName

theorem loadMember_trace (files : LayoutFiles) (slot : KeyboardSlot) (fileName : String)
    (p : Performed) :
    (loadMember files slot fileName p).2.trace
      = p.trace ++ [Event.load slot fileName (files fileName).isSome] := by
  unfold loadMember
  rw [loadNokiaKeyboard_fst]

theorem loadMember_numberFormat (files : LayoutFiles) (slot : KeyboardSlot) (fileName : String)
    (p : Performed) :
    (loadMember files slot fileName p).2.manager.numberFormat = p.manager.numberFormat := by
  unfold loadMember setMember
  cases slot <;> rfl

theorem loadMember_member_of_loaded (files : LayoutFiles) (slot : KeyboardSlot)
    (fileName : String) (p : Performed) (kb : KeyboardData) (h : files fileName = some kb) :
    member (loadMember files slot fileName p).2.manager slot = kb := by
  unfold loadMember setMember KeyboardData.loadNokiaKeyboard member
  rw [h]
  cases slot <;> rfl

/-- The three courses of the number-keyboard half of `syncNumberKeyboards`. -/
theorem syncNumberKeyboard_cases (files : LayoutFiles) (numberFormatSetting : Option String)
    (p : Performed) :
    (numberFormatOfSetting numberFormatSetting = NumberFormat.NumArabic
        ∧ (files NumberKeyboardFileArabic).isSome = true
        ∧ (syncNumberKeyboard files numberFormatSetting p).manager.numberFormat
            = NumberFormat.NumArabic
        ∧ (syncNumberKeyboard files numberFormatSetting p).trace
            = p.trace ++ [Event.load KeyboardSlot.numberKeyboard NumberKeyboardFileArabic true])
    ∨ (numberFormatOfSetting numberFormatSetting = NumberFormat.NumArabic
        ∧ (files NumberKeyboardFileArabic).isSome = false
        ∧ (syncNumberKeyboard files numberFormatSetting p).manager.numberFormat
            = NumberFormat.NumLatin
        ∧ (syncNumberKeyboard files numberFormatSetting p).trace
            = p.trace ++ [Event.load KeyboardSlot.numberKeyboard NumberKeyboardFileArabic false,
                Event.load KeyboardSlot.numberKeyboard NumberKeyboardFileLatin
                  (files NumberKeyboardFileLatin).isSome])
    ∨ (numberFormatOfSetting numberFormatSetting = NumberFormat.NumLatin
        ∧ (syncNumberKeyboard files numberFormatSetting p).manager.numberFormat
            = NumberFormat.NumLatin
        ∧ (syncNumberKeyboard files numberFormatSetting p).trace
            = p.trace ++ [Event.load KeyboardSlot.numberKeyboard NumberKeyboardFileLatin
                (files NumberKeyboardFileLatin).isSome]) := by
  unfold syncNumberKeyboard
  cases hf : numberFormatOfSetting numberFormatSetting with
  | NumLatin =>
    refine Or.inr (Or.inr ⟨rfl, ?_, ?_⟩)
    · simp [loadMember_fst, loadMember_numberFormat, loadMember_trace]
    · simp [loadMember_fst, loadMember_numberFormat, loadMember_trace]
  | NumArabic =>
    cases ha : (files NumberKeyboardFileArabic).isSome with
    | true =>
      refine Or.inl ⟨rfl, rfl, ?_, ?_⟩
      · simp [loadMember_fst, loadMember_numberFormat, loadMember_trace, ha]
      · simp [loadMember_fst, loadMember_numberFormat, loadMember_trace, ha]
    | false =>
      refine Or.inr (Or.inl ⟨rfl, rfl, ?_, ?_⟩)
      · simp [loadMember_fst, loadMember_numberFormat, loadMember_trace, ha]
      · simp [loadMember_fst, loadMember_numberFormat, loadMember_trace, ha]

theorem loadMember_of_failed (files : LayoutFiles) (slot : KeyboardSlot)
    (fileName : String) (p : Performed) (h : files fileName = none) :
    (loadMember files slot fileName p).2
      = { p with trace := p.trace ++ [Event.load slot fileName false] } := by
  unfold loadMember setMember KeyboardData.loadNokiaKeyboard member
  rw [h]
  cases slot <;> rfl

/-- The five courses of the phone-number half of `syncNumberKeyboards`. -/
theorem syncPhoneNumberKeyboard_cases (files : LayoutFiles) (messagesLanguage : String)
    (p : Performed) :
    (syncPhoneNumberKeyboard files messagesLanguage p).manager.numberFormat
        = p.manager.numberFormat ∧
    ((p.manager.numberFormat = NumberFormat.NumArabic
        ∧ (∃ kb, files PhoneNumberKeyboardFileArabic = some kb
            ∧ (syncPhoneNumberKeyboard files messagesLanguage p).manager.phoneNumberKeyboard = kb)
        ∧ (syncPhoneNumberKeyboard files messagesLanguage p).trace
            = p.trace
              ++ [Event.load KeyboardSlot.phoneNumberKeyboard PhoneNumberKeyboardFileArabic true])
    ∨ (p.manager.numberFormat = NumberFormat.NumArabic
        ∧ files PhoneNumberKeyboardFileArabic = none
        ∧ (syncPhoneNumberKeyboard files messagesLanguage p)
            = (loadMember files KeyboardSlot.phoneNumberKeyboard PhoneNumberKeyboardFileLatin
                { p with trace := p.trace ++ [Event.load KeyboardSlot.phoneNumberKeyboard
                    PhoneNumberKeyboardFileArabic false] }).2)
    ∨ (p.manager.numberFormat ≠ NumberFormat.NumArabic ∧ messagesLanguage = "ru"
        ∧ (∃ kb, files PhoneNumberKeyboardFileRussian = some kb
            ∧ (syncPhoneNumberKeyboard files messagesLanguage p).manager.phoneNumberKeyboard = kb)
        ∧ (syncPhoneNumberKeyboard files messagesLanguage p).trace
            = p.trace
              ++ [Event.load KeyboardSlot.phoneNumberKeyboard PhoneNumberKeyboardFileRussian true])
    ∨ (p.manager.numberFormat ≠ NumberFormat.NumArabic ∧ messagesLanguage = "ru"
        ∧ files PhoneNumberKeyboardFileRussian = none
        ∧ (syncPhoneNumberKeyboard files messagesLanguage p)
            = (loadMember files KeyboardSlot.phoneNumberKeyboard PhoneNumberKeyboardFileLatin
                { p with trace := p.trace ++ [Event.load KeyboardSlot.phoneNumberKeyboard
                    PhoneNumberKeyboardFileRussian false] }).2)
    ∨ (p.manager.numberFormat ≠ NumberFormat.NumArabic ∧ messagesLanguage ≠ "ru"
        ∧ (syncPhoneNumberKeyboard files messagesLanguage p)
            = (loadMember files KeyboardSlot.phoneNumberKeyboard PhoneNumberKeyboardFileLatin
                p).2)) := by
  by_cases hf : p.manager.numberFormat = NumberFormat.NumArabic
  · cases ha : files PhoneNumberKeyboardFileArabic with
    | some kb =>
      have hl : (files PhoneNumberKeyboardFileArabic).isSome = true := by rw [ha]; rfl
      have hval : syncPhoneNumberKeyboard files messagesLanguage p
          = (loadMember files KeyboardSlot.phoneNumberKeyboard PhoneNumberKeyboardFileArabic
              p).2 := by
        unfold syncPhoneNumberKeyboard
        simp [hf, loadMember_fst, hl]
      rw [hval]
      refine ⟨loadMember_numberFormat _ _ _ _, Or.inl ⟨hf, ⟨kb, rfl, ?_⟩, ?_⟩⟩
      · exact loadMember_member_of_loaded files KeyboardSlot.phoneNumberKeyboard _ p kb ha
      · rw [loadMember_trace, hl]
    | none =>
      have hl : (files PhoneNumberKeyboardFileArabic).isSome = false := by rw [ha]; rfl
      have hval : syncPhoneNumberKeyboard files messagesLanguage p
          = (loadMember files KeyboardSlot.phoneNumberKeyboard PhoneNumberKeyboardFileLatin
              { p with trace := p.trace ++ [Event.load KeyboardSlot.phoneNumberKeyboard
                  PhoneNumberKeyboardFileArabic false] }).2 := by
        unfold syncPhoneNumberKeyboard
        simp [hf, loadMember_fst, hl, loadMember_of_failed files _ _ p ha]
      rw [hval]
      exact ⟨loadMember_numberFormat _ _ _ _, Or.inr (Or.inl ⟨hf, rfl, rfl⟩)⟩
  · by_cases hr : messagesLanguage = "ru"
    · cases ha : files PhoneNumberKeyboardFileRussian with
      | some kb =>
        have hl : (files PhoneNumberKeyboardFileRussian).isSome = true := by rw [ha]; rfl
        have hval : syncPhoneNumberKeyboard files messagesLanguage p
            = (loadMember files KeyboardSlot.phoneNumberKeyboard PhoneNumberKeyboardFileRussian
                p).2 := by
          unfold syncPhoneNumberKeyboard
          simp [hf, hr, loadMember_fst, hl]
        rw [hval]
        refine ⟨loadMember_numberFormat _ _ _ _,
          Or.inr (Or.inr (Or.inl ⟨hf, hr, ⟨kb, rfl, ?_⟩, ?_⟩))⟩
        · exact loadMember_member_of_loaded files KeyboardSlot.phoneNumberKeyboard _ p kb ha
        · rw [loadMember_trace, hl]
      | none =>
        have hl : (files PhoneNumberKeyboardFileRussian).isSome = false := by rw [ha]; rfl
        have hval : syncPhoneNumberKeyboard files messagesLanguage p
            = (loadMember files KeyboardSlot.phoneNumberKeyboard PhoneNumberKeyboardFileLatin
                { p with trace := p.trace ++ [Event.load KeyboardSlot.phoneNumberKeyboard
                    PhoneNumberKeyboardFileRussian false] }).2 := by
          unfold syncPhoneNumberKeyboard
          simp [hf, hr, loadMember_fst, hl, loadMember_of_failed files _ _ p ha]
        rw [hval]
        exact ⟨loadMember_numberFormat _ _ _ _,
          Or.inr (Or.inr (Or.inr (Or.inl ⟨hf, hr, rfl, rfl⟩)))⟩
    · have hval : syncPhoneNumberKeyboard files messagesLanguage p
          = (loadMember files KeyboardSlot.phoneNumberKeyboard PhoneNumberKeyboardFileLatin
              p).2 := by
        unfold syncPhoneNumberKeyboard
        simp [hf, hr]
      rw [hval]
      exact ⟨loadMember_numberFormat _ _ _ _,
        Or.inr (Or.inr (Or.inr (Or.inr ⟨hf, hr, rfl⟩)))⟩

theorem numberFormatOfSetting_eq_arabic_iff (numberFormatSetting : Option String) :
    numberFormatOfSetting numberFormatSetting = NumberFormat.NumArabic
      ↔ ∃ value, numberFormatSetting = some value ∧ QString.toLower value = "arabic" := by
  unfold numberFormatOfSetting
  cases numberFormatSetting with
  | none =>
    have h : ¬ "arabic" = QString.toLower DefaultNumberFormat := by decide
    simp [h]
  | some value =>
    by_cases h : "arabic" = QString.toLower value
    · rw [if_pos h]
      constructor
      · intro _
        exact ⟨value, rfl, h.symm⟩
      · intro _
        rfl
    · rw [if_neg h]
      constructor
      · intro hc
        cases hc
      · rintro ⟨v, hv, hl⟩
        cases hv
        exact absurd hl.symm h

/-- The phone-number half only appends loads into the phone-number keyboard. -/
theorem syncPhoneNumberKeyboard_trace (files : LayoutFiles) (messagesLanguage : String)
    (p : Performed) :
    ∃ names : List (String × Bool),
      (syncPhoneNumberKeyboard files messagesLanguage p).trace
        = p.trace ++ names.map (fun n => Event.load KeyboardSlot.phoneNumberKeyboard n.1 n.2) := by
  rcases (syncPhoneNumberKeyboard_cases files messagesLanguage p).2 with
    ⟨_, _, h⟩ | ⟨_, _, h⟩ | ⟨_, _, _, h⟩ | ⟨_, _, _, h⟩ | ⟨_, _, h⟩
  · exact ⟨[(PhoneNumberKeyboardFileArabic, true)], by rw [h]; rfl⟩
  · refine ⟨[(PhoneNumberKeyboardFileArabic, false),
      (PhoneNumberKeyboardFileLatin, (files PhoneNumberKeyboardFileLatin).isSome)], ?_⟩
    rw [h, loadMember_trace]
    simp
  · exact ⟨[(PhoneNumberKeyboardFileRussian, true)], by rw [h]; rfl⟩
  · refine ⟨[(PhoneNumberKeyboardFileRussian, false),
      (PhoneNumberKeyboardFileLatin, (files PhoneNumberKeyboardFileLatin).isSome)], ?_⟩
    rw [h, loadMember_trace]
    simp
  · refine ⟨[(PhoneNumberKeyboardFileLatin, (files PhoneNumberKeyboardFileLatin).isSome)], ?_⟩
    rw [h, loadMember_trace]
    simp

theorem loadsInto_number_of_phone (names : List (String × Bool)) :
    loadsInto KeyboardSlot.numberKeyboard
      (names.map (fun n => Event.load KeyboardSlot.phoneNumberKeyboard n.1 n.2)) = [] := by
  induction names with
  | nil => rfl
  | cons n rest ih =>
    unfold loadsInto at ih ⊢
    simp only [List.map_cons, List.filterMap_cons]
    exact ih

theorem emissions_of_phone (signal : Signal) (names : List (String × Bool)) :
    emissions signal
      (names.map (fun n => Event.load KeyboardSlot.phoneNumberKeyboard n.1 n.2)) = 0 := by
  unfold emissions
  rw [List.count_eq_zero]
  intro h
  obtain ⟨n, _, hn⟩ := List.mem_map.mp h
  cases hn

end LayoutsManager

namespace LayoutsManager

theorem loadMember_phone_keeps_numberKeyboard (files : LayoutFiles) (fileName : String)
    (p : Performed) :
    (loadMember files KeyboardSlot.phoneNumberKeyboard fileName p).2.manager.numberKeyboard
      = p.manager.numberKeyboard :=
  rfl

theorem syncPhoneNumberKeyboard_keeps_numberKeyboard (files : LayoutFiles)
    (messagesLanguage : String) (p : Performed) :
    (syncPhoneNumberKeyboard files messagesLanguage p).manager.numberKeyboard
      = p.manager.numberKeyboard := by
  unfold syncPhoneNumberKeyboard
  dsimp only
  split_ifs <;> simp only [loadMember_phone_keeps_numberKeyboard]

/-- The number keyboard after the number-keyboard half of `syncNumberKeyboards`: the keyboard
of number_ar.xml when the format ends as Arabic, that of number.xml when it ends as Latin and
the file loads, and the keyboard as it was when the format ends as Latin and number.xml does
not load. -/
theorem syncNumberKeyboard_numberKeyboard (files : LayoutFiles)
    (numberFormatSetting : Option String) (p : Performed) :
    (∀ kb, (syncNumberKeyboard files numberFormatSetting p).manager.numberFormat
        = NumberFormat.NumArabic →
      files NumberKeyboardFileArabic = some kb →
      (syncNumberKeyboard files numberFormatSetting p).manager.numberKeyboard = kb) ∧
    (∀ kb, (syncNumberKeyboard files numberFormatSetting p).manager.numberFormat
        ≠ NumberFormat.NumArabic →
      files NumberKeyboardFileLatin = some kb →
      (syncNumberKeyboard files numberFormatSetting p).manager.numberKeyboard = kb) ∧
    ((syncNumberKeyboard files numberFormatSetting p).manager.numberFormat
        ≠ NumberFormat.NumArabic →
      files NumberKeyboardFileLatin = none →
      (syncNumberKeyboard files numberFormatSetting p).manager.numberKeyboard
        = p.manager.numberKeyboard) := by
  unfold syncNumberKeyboard
  cases hf : numberFormatOfSetting numberFormatSetting with
  | NumLatin =>
    cases hl : files NumberKeyboardFileLatin with
    | none =>
      simp [loadMember, setMember, member, KeyboardData.loadNokiaKeyboard, hl]
    | some kb =>
      simp [loadMember, setMember, member, KeyboardData.loadNokiaKeyboard, hl]
  | NumArabic =>
    cases ha : files NumberKeyboardFileArabic with
    | some kb =>
      simp [loadMember, setMember, member, KeyboardData.loadNokiaKeyboard, ha]
    | none =>
      cases hl : files NumberKeyboardFileLatin with
      | none =>
        simp [loadMember, setMember, member, KeyboardData.loadNokiaKeyboard, ha, hl]
      | some kb =>
        simp [loadMember, setMember, member, KeyboardData.loadNokiaKeyboard, ha, hl]

end LayoutsManager

/-- C11: the number format falls back to Latin. After syncNumberKeyboards() the number format
is Arabic exactly when the number-format setting is set to a value that, lowercased, equals
"arabic" and number_ar.xml loads, and the number keyboard then holds number_ar.xml; in every
other case the format is Latin, number.xml is the last file loaded into the number keyboard and
the number keyboard holds it when it loads (and is as it was before the call when it does
not). -/
theorem syncNumberKeyboards_number_format (files : LayoutFiles)
    (numberFormatSetting : Option String) (messagesLanguage : String) (m : LayoutsManager) :
    ((syncNumberKeyboards files numberFormatSetting messagesLanguage m).manager.numberFormat
        = NumberFormat.NumArabic
      ↔ (∃ value, numberFormatSetting = some value ∧ QString.toLower value = "arabic")
          ∧ (files NumberKeyboardFileArabic).isSome = true) ∧
    ((syncNumberKeyboards files numberFormatSetting messagesLanguage m).manager.numberFormat
        ≠ NumberFormat.NumArabic →
      (syncNumberKeyboards files numberFormatSetting messagesLanguage m).manager.numberFormat
          = NumberFormat.NumLatin
        ∧ (loadsInto KeyboardSlot.numberKeyboard
            (syncNumberKeyboards files numberFormatSetting messagesLanguage m).trace).getLast?
          = some NumberKeyboardFileLatin) ∧
    (∀ kb,
      (syncNumberKeyboards files numberFormatSetting messagesLanguage m).manager.numberFormat
        = NumberFormat.NumArabic →
      files NumberKeyboardFileArabic = some kb →
      (syncNumberKeyboards files numberFormatSetting messagesLanguage m).manager.numberKeyboard
        = kb) ∧
    (∀ kb,
      (syncNumberKeyboards files numberFormatSetting messagesLanguage m).manager.numberFormat
        ≠ NumberFormat.NumArabic →
      files NumberKeyboardFileLatin = some kb →
      (syncNumberKeyboards files numberFormatSetting messagesLanguage m).manager.numberKeyboard
        = kb) ∧
    ((syncNumberKeyboards files numberFormatSetting messagesLanguage m).manager.numberFormat
        ≠ NumberFormat.NumArabic →
      files NumberKeyboardFileLatin = none →
      (syncNumberKeyboards files numberFormatSetting messagesLanguage m).manager.numberKeyboard
        = m.numberKeyboard) := by
  have hformat : (syncNumberKeyboards files numberFormatSetting messagesLanguage m).manager.numberFormat
      = (syncNumberKeyboard files numberFormatSetting { manager := m, trace := [] }).manager.numberFormat :=
    (syncPhoneNumberKeyboard_cases files messagesLanguage _).1
  have hkeyboard :
      (syncNumberKeyboards files numberFormatSetting messagesLanguage m).manager.numberKeyboard
      = (syncNumberKeyboard files numberFormatSetting
          { manager := m, trace := [] }).manager.numberKeyboard :=
    syncPhoneNumberKeyboard_keeps_numberKeyboard files messagesLanguage _
  obtain ⟨harabic, hlatin, hfailed⟩ :=
    syncNumberKeyboard_numberKeyboard files numberFormatSetting { manager := m, trace := [] }
  refine ⟨?_, ?_, ?_⟩
  · obtain ⟨names, hnames⟩ := syncPhoneNumberKeyboard_trace files messagesLanguage
      (syncNumberKeyboard files numberFormatSetting { manager := m, trace := [] })
    have htrace : loadsInto KeyboardSlot.numberKeyboard
        (syncNumberKeyboards files numberFormatSetting messagesLanguage m).trace
        = loadsInto KeyboardSlot.numberKeyboard
            (syncNumberKeyboard files numberFormatSetting { manager := m, trace := [] }).trace := by
      show loadsInto _ ((syncPhoneNumberKeyboard files messagesLanguage _).trace ++ _) = _
      rw [hnames]
      unfold loadsInto
      rw [List.filterMap_append, List.filterMap_append]
      have h0 := loadsInto_number_of_phone names
      unfold loadsInto at h0
      rw [h0]
      simp
    rw [hformat, ← numberFormatOfSetting_eq_arabic_iff]
    rcases syncNumberKeyboard_cases files numberFormatSetting { manager := m, trace := [] } with
      ⟨h1, h2, h3, _⟩ | ⟨h1, h2, h3, _⟩ | ⟨h1, h3, _⟩
    · rw [h3]
      exact ⟨fun _ => ⟨h1, h2⟩, fun _ => rfl⟩
    · rw [h3]
      constructor
      · intro h
        cases h
      · intro h
        rw [h2] at h
        cases h.2
    · rw [h3]
      constructor
      · intro h
        cases h
      · intro h
        rw [h1] at h
        cases h.1
  · obtain ⟨names, hnames⟩ := syncPhoneNumberKeyboard_trace files messagesLanguage
      (syncNumberKeyboard files numberFormatSetting { manager := m, trace := [] })
    have htrace : loadsInto KeyboardSlot.numberKeyboard
        (syncNumberKeyboards files numberFormatSetting messagesLanguage m).trace
        = loadsInto KeyboardSlot.numberKeyboard
            (syncNumberKeyboard files numberFormatSetting { manager := m, trace := [] }).trace := by
      show loadsInto _ ((syncPhoneNumberKeyboard files messagesLanguage _).trace ++ _) = _
      rw [hnames]
      unfold loadsInto
      rw [List.filterMap_append, List.filterMap_append]
      have h0 := loadsInto_number_of_phone names
      unfold loadsInto at h0
      rw [h0]
      simp
    rw [hformat, htrace]
    rcases syncNumberKeyboard_cases files numberFormatSetting { manager := m, trace := [] } with
      ⟨_, _, h3, _⟩ | ⟨_, _, h3, h4⟩ | ⟨_, h3, h4⟩
    · rw [h3]
      exact fun h => absurd rfl h
    · rw [h3, h4]
      exact fun _ => ⟨rfl, by simp [loadsInto]⟩
    · rw [h3, h4]
      exact fun _ => ⟨rfl, by simp [loadsInto]⟩
  · rw [hformat, hkeyboard]
    exact ⟨harabic, hlatin, hfailed⟩

theorem loadsInto_phone_of_load (fileName : String) (loaded : Bool) :
    loadsInto KeyboardSlot.phoneNumberKeyboard
      [Event.load KeyboardSlot.phoneNumberKeyboard fileName loaded] = [fileName] := by
  simp [loadsInto]

/-- An instance of the C11 statement: with the setting "ARABIC" and number_ar.xml not loadable,
the format ends as Latin, number.xml is the last file loaded into the number keyboard and the
number keyboard holds it. -/
theorem syncNumberKeyboards_number_format_witness :
    ((syncNumberKeyboards (sampleFiles ["number", "phonenumber"]) (some "ARABIC") "fi"
        LayoutsManager.init).manager.numberFormat = NumberFormat.NumLatin ∧
      (loadsInto KeyboardSlot.numberKeyboard
        (syncNumberKeyboards (sampleFiles ["number", "phonenumber"]) (some "ARABIC") "fi"
          LayoutsManager.init).trace).getLast? = some NumberKeyboardFileLatin) ∧
    (syncNumberKeyboards (sampleFiles ["number", "phonenumber"]) (some "ARABIC") "fi"
        LayoutsManager.init).manager.numberKeyboard = sampleKeyboard "number" :=
  ⟨(syncNumberKeyboards_number_format (sampleFiles ["number", "phonenumber"]) (some "ARABIC")
      "fi" LayoutsManager.init).2.1 (by decide),
   (syncNumberKeyboards_number_format (sampleFiles ["number", "phonenumber"]) (some "ARABIC")
      "fi" LayoutsManager.init).2.2.2.1 (sampleKeyboard "number") (by decide) (by decide)⟩

/-- C13: LayoutsManager::layout never returns a null pointer. For every language string, layout
type and orientation the returned pointer is not null: it is the layout found, or else the
shared empty LayoutData; and for the types Number and PhoneNumber the result does not depend on
the language argument. -/
theorem layout_never_null (m : LayoutsManager) (language : String) (type : LayoutType)
    (orientation : Orientation) :
    layoutReturned m language type orientation ≠ none ∧
    ((∃ lm, layoutPointer m language type orientation = some lm
        ∧ layoutReturned m language type orientation = some lm)
      ∨ (layoutPointer m language type orientation = none
        ∧ layoutReturned m language type orientation = some LayoutData.empty)) ∧
    layoutReturned m language type orientation = some (layout m language type orientation) ∧
    (type = LayoutType.Number ∨ type = LayoutType.PhoneNumber →
      ∀ other : String,
        layoutReturned m other type orientation = layoutReturned m language type orientation) := by
  refine ⟨?_, ?_, ?_, ?_⟩
  · unfold layoutReturned
    cases layoutPointer m language type orientation <;> simp
  · unfold layoutReturned
    cases h : layoutPointer m language type orientation with
    | none => exact Or.inr ⟨rfl, rfl⟩
    | some lm => exact Or.inl ⟨lm, rfl, rfl⟩
  · unfold layoutReturned layout
    cases layoutPointer m language type orientation <;> rfl
  · intro htype other
    have hp : layoutPointer m other type orientation
        = layoutPointer m language type orientation := by
      unfold layoutPointer
      rcases htype with h | h
      · rw [h]
        simp
      · rw [h]
        simp
    unfold layoutReturned
    rw [hp]

/-- An instance of the C13 statement: with only "fi" loaded, the number layout asked for under
"fi" and under "no-such-language" is the same, non-null pointer. -/
theorem layout_never_null_witness :
    layoutReturned (sampleManager ["fi"]) "no-such-language" LayoutType.Number
        Orientation.Landscape
      = layoutReturned (sampleManager ["fi"]) "fi" LayoutType.Number Orientation.Landscape ∧
    layoutReturned (sampleManager ["fi"]) "no-such-language" LayoutType.General
        Orientation.Landscape ≠ none :=
  ⟨(layout_never_null (sampleManager ["fi"]) "fi" LayoutType.Number
      Orientation.Landscape).2.2.2 (Or.inl rfl) "no-such-language",
   (layout_never_null (sampleManager ["fi"]) "no-such-language" LayoutType.General
      Orientation.Landscape).1⟩

theorem loadMember_preserves (files : LayoutFiles) (slot : KeyboardSlot) (fileName : String)
    (p : Performed) :
    (loadMember files slot fileName p).2.manager.xkbCurrentLayout = p.manager.xkbCurrentLayout
    ∧ (loadMember files slot fileName p).2.manager.xkbCurrentVariant
        = p.manager.xkbCurrentVariant
    ∧ (loadMember files slot fileName p).2.manager.currentHwkbLayoutType
        = p.manager.currentHwkbLayoutType := by
  unfold loadMember setMember
  cases slot <;> exact ⟨rfl, rfl, rfl⟩

/-- The two courses of `syncHardwareKeyboard`. -/
theorem syncHardwareKeyboard_cases (files : LayoutFiles)
    (xkbLayoutType : String → HardwareKeyboardLayout)
    (HwkbLayoutToSymVariant : HardwareKeyboardLayout → HardwareSymbolVariant)
    (p : Performed) :
    (xkbLayoutType (xkbLayout p.manager) = p.manager.currentHwkbLayoutType
        ∧ syncHardwareKeyboard files xkbLayoutType HwkbLayoutToSymVariant p = p)
    ∨ (xkbLayoutType (xkbLayout p.manager) ≠ p.manager.currentHwkbLayoutType
        ∧ (syncHardwareKeyboard files xkbLayoutType HwkbLayoutToSymVariant p).manager.currentHwkbLayoutType
            = xkbLayoutType (xkbLayout p.manager)
        ∧ (syncHardwareKeyboard files xkbLayoutType HwkbLayoutToSymVariant p).manager.xkbCurrentLayout
            = p.manager.xkbCurrentLayout
        ∧ (syncHardwareKeyboard files xkbLayoutType HwkbLayoutToSymVariant p).manager.xkbCurrentVariant
            = p.manager.xkbCurrentVariant
        ∧ (syncHardwareKeyboard files xkbLayoutType HwkbLayoutToSymVariant p).trace
            = p.trace
              ++ Event.load KeyboardSlot.hwKeyboard
                  (symbolVariantFileName
                    (HwkbLayoutToSymVariant (xkbLayoutType (xkbLayout p.manager))))
                  (files (symbolVariantFileName
                    (HwkbLayoutToSymVariant (xkbLayoutType (xkbLayout p.manager))))).isSome
                :: (if (files (symbolVariantFileName
                      (HwkbLayoutToSymVariant (xkbLayoutType (xkbLayout p.manager))))).isSome
                      = true
                    then [Event.emitted Signal.hardwareLayoutChanged] else [])) := by
  unfold syncHardwareKeyboard
  by_cases h : xkbLayoutType (xkbLayout p.manager) = p.manager.currentHwkbLayoutType
  · exact Or.inl ⟨h, by rw [if_pos h]⟩
  · refine Or.inr ⟨h, ?_⟩
    rw [if_neg h]
    simp only [loadMember_fst]
    cases hl : (files (symbolVariantFileName
        (HwkbLayoutToSymVariant (xkbLayoutType (xkbLayout p.manager))))).isSome with
    | true =>
      simp only [if_true]
      refine ⟨?_, ?_, ?_, ?_⟩
      · rw [(loadMember_preserves _ _ _ _).2.2]
      · rw [(loadMember_preserves _ _ _ _).1]
      · rw [(loadMember_preserves _ _ _ _).2.1]
      · rw [loadMember_trace, hl]
        simp
    | false =>
      simp only [Bool.false_eq_true, if_false]
      refine ⟨?_, ?_, ?_, ?_⟩
      · rw [(loadMember_preserves _ _ _ _).2.2]
      · rw [(loadMember_preserves _ _ _ _).1]
      · rw [(loadMember_preserves _ _ _ _).2.1]
      · rw [loadMember_trace, hl]

/-- The manager after a `syncHardwareKeyboard` call that finds a new layout type: the type is
recorded, the hardware keyboard holds the symbols file when it loads, and nothing else
changes. -/
theorem syncHardwareKeyboard_manager (files : LayoutFiles)
    (xkbLayoutType : String → HardwareKeyboardLayout)
    (HwkbLayoutToSymVariant : HardwareKeyboardLayout → HardwareSymbolVariant)
    (p : Performed)
    (hne : xkbLayoutType (xkbLayout p.manager) ≠ p.manager.currentHwkbLayoutType) :
    (∀ kb, files (symbolVariantFileName
          (HwkbLayoutToSymVariant (xkbLayoutType (xkbLayout p.manager)))) = some kb →
      (syncHardwareKeyboard files xkbLayoutType HwkbLayoutToSymVariant p).manager
        = { p.manager with currentHwkbLayoutType := xkbLayoutType (xkbLayout p.manager), hwKeyboard := kb }) ∧
    (files (symbolVariantFileName
          (HwkbLayoutToSymVariant (xkbLayoutType (xkbLayout p.manager)))) = none →
      (syncHardwareKeyboard files xkbLayoutType HwkbLayoutToSymVariant p).manager
        = { p.manager with currentHwkbLayoutType := xkbLayoutType (xkbLayout p.manager) }) := by
  unfold syncHardwareKeyboard
  rw [if_neg hne]
  constructor
  · intro kb hkb
    simp [loadMember, setMember, member, KeyboardData.loadNokiaKeyboard, hkb]
  · intro hnone
    simp [loadMember, setMember, member, KeyboardData.loadNokiaKeyboard, hnone]

/-- C15: syncHardwareKeyboard() does nothing (no load, no signal, manager unchanged) when the
layout type of the current xkb layout equals the recorded hardware layout type. Otherwise it
records the new type, makes exactly one load, of the symbols file of that type into the hardware
keyboard, and emits hardwareLayoutChanged if and only if that load succeeded; when the file
loads the hardware keyboard holds it, and nothing but the recorded type and the hardware
keyboard changes. There is no retry: a further call with the same xkb layout, whatever files
can be loaded then, attempts no load and changes nothing, also after a failed load. -/
theorem syncHardwareKeyboard_once (files : LayoutFiles)
    (xkbLayoutType : String → HardwareKeyboardLayout)
    (HwkbLayoutToSymVariant : HardwareKeyboardLayout → HardwareSymbolVariant)
    (m : LayoutsManager) :
    (xkbLayoutType (xkbLayout m) = m.currentHwkbLayoutType →
      syncHardwareKeyboard files xkbLayoutType HwkbLayoutToSymVariant
          { manager := m, trace := [] }
        = { manager := m, trace := [] }) ∧
    (xkbLayoutType (xkbLayout m) ≠ m.currentHwkbLayoutType →
      (syncHardwareKeyboard files xkbLayoutType HwkbLayoutToSymVariant
          { manager := m, trace := [] }).manager.currentHwkbLayoutType
        = xkbLayoutType (xkbLayout m)
      ∧ (syncHardwareKeyboard files xkbLayoutType HwkbLayoutToSymVariant
          { manager := m, trace := [] }).trace
        = Event.load KeyboardSlot.hwKeyboard
            (symbolVariantFileName (HwkbLayoutToSymVariant (xkbLayoutType (xkbLayout m))))
            (files (symbolVariantFileName
              (HwkbLayoutToSymVariant (xkbLayoutType (xkbLayout m))))).isSome
          :: (if (files (symbolVariantFileName
                (HwkbLayoutToSymVariant (xkbLayoutType (xkbLayout m))))).isSome = true
              then [Event.emitted Signal.hardwareLayoutChanged] else [])
      ∧ (∀ kb, files (symbolVariantFileName
            (HwkbLayoutToSymVariant (xkbLayoutType (xkbLayout m)))) = some kb →
          (syncHardwareKeyboard files xkbLayoutType HwkbLayoutToSymVariant
              { manager := m, trace := [] }).manager
            = { m with currentHwkbLayoutType := xkbLayoutType (xkbLayout m), hwKeyboard := kb })
      ∧ (files (symbolVariantFileName
            (HwkbLayoutToSymVariant (xkbLayoutType (xkbLayout m)))) = none →
          (syncHardwareKeyboard files xkbLayoutType HwkbLayoutToSymVariant
              { manager := m, trace := [] }).manager
            = { m with currentHwkbLayoutType := xkbLayoutType (xkbLayout m) })) ∧
    (∀ later : LayoutFiles,
      syncHardwareKeyboard later xkbLayoutType HwkbLayoutToSymVariant
          { manager := (syncHardwareKeyboard files xkbLayoutType HwkbLayoutToSymVariant
              { manager := m, trace := [] }).manager
            trace := [] }
        = { manager := (syncHardwareKeyboard files xkbLayoutType HwkbLayoutToSymVariant
              { manager := m, trace := [] }).manager
            trace := [] }) := by
  have hrecorded : xkbLayoutType (xkbLayout
      (syncHardwareKeyboard files xkbLayoutType HwkbLayoutToSymVariant
        { manager := m, trace := [] }).manager)
      = (syncHardwareKeyboard files xkbLayoutType HwkbLayoutToSymVariant
        { manager := m, trace := [] }).manager.currentHwkbLayoutType := by
    rcases syncHardwareKeyboard_cases files xkbLayoutType HwkbLayoutToSymVariant
        { manager := m, trace := [] } with ⟨h, he⟩ | ⟨_, h1, h2, _, _⟩
    · rw [he]
      exact h
    · unfold xkbLayout at h1 ⊢
      rw [h2, h1]
  refine ⟨?_, ?_, ?_⟩
  · intro h
    rcases syncHardwareKeyboard_cases files xkbLayoutType HwkbLayoutToSymVariant
        { manager := m, trace := [] } with ⟨_, he⟩ | ⟨hne, _⟩
    · exact he
    · exact absurd h hne
  · intro hne
    have hmanager := syncHardwareKeyboard_manager files xkbLayoutType HwkbLayoutToSymVariant
      { manager := m, trace := [] } hne
    rcases syncHardwareKeyboard_cases files xkbLayoutType HwkbLayoutToSymVariant
        { manager := m, trace := [] } with ⟨h, _⟩ | ⟨_, h1, _, _, h4⟩
    · exact absurd h hne
    · exact ⟨h1, by rw [h4]; rfl, hmanager.1, hmanager.2⟩
  · intro later
    rcases syncHardwareKeyboard_cases later xkbLayoutType HwkbLayoutToSymVariant
        { manager := (syncHardwareKeyboard files xkbLayoutType HwkbLayoutToSymVariant
            { manager := m, trace := [] }).manager
          trace := [] } with ⟨_, he⟩ | ⟨hne, _⟩
    · exact he
    · exact absurd hrecorded hne

/-- An instance of the C15 statement: on a new manager whose xkb layout is "ara", with no
symbols file loadable, the call records the type and makes one failed load without a signal;
with the xkb layout "us" and hwsymbols_us.xml loadable the hardware keyboard holds that file;
on a new manager whose xkb layout has the recorded (invalid) type the call does nothing. -/
theorem syncHardwareKeyboard_once_witness :
    (syncHardwareKeyboard (sampleFiles []) sampleXkbLayoutType sampleSymVariant
        { manager := { LayoutsManager.init with xkbCurrentLayout := "ara" }, trace := [] }).trace
      = [Event.load KeyboardSlot.hwKeyboard "hwsymbols_arabic.xml" false] ∧
    (syncHardwareKeyboard (sampleFiles ["hwsymbols_us"]) sampleXkbLayoutType sampleSymVariant
        { manager := { LayoutsManager.init with xkbCurrentLayout := "us" },
          trace := [] }).manager.hwKeyboard
      = sampleKeyboard "hwsymbols_us" ∧
    syncHardwareKeyboard (sampleFiles ["hwsymbols_us"]) sampleXkbLayoutType sampleSymVariant
        { manager := LayoutsManager.init, trace := [] }
      = { manager := LayoutsManager.init, trace := [] } :=
  ⟨((syncHardwareKeyboard_once (sampleFiles []) sampleXkbLayoutType sampleSymVariant
      { LayoutsManager.init with xkbCurrentLayout := "ara" }).2.1 (by decide)).2.1.trans
      (by decide),
   (congrArg LayoutsManager.hwKeyboard
      (((syncHardwareKeyboard_once (sampleFiles ["hwsymbols_us"]) sampleXkbLayoutType
        sampleSymVariant { LayoutsManager.init with xkbCurrentLayout := "us" }).2.1
        (by decide)).2.2.1 (sampleKeyboard "hwsymbols_us") (by decide))).trans (by decide),
   (syncHardwareKeyboard_once (sampleFiles ["hwsymbols_us"]) sampleXkbLayoutType
      sampleSymVariant LayoutsManager.init).1 (by decide)⟩

theorem xkbMapChange_spec (m : LayoutsManager) (layout variant : String) :
    (xkbMapChange m layout variant).2.xkbCurrentLayout = layout
    ∧ (xkbMapChange m layout variant).2.xkbCurrentVariant = variant
    ∧ ((xkbMapChange m layout variant).1 = true
        ↔ layout ≠ m.xkbCurrentLayout ∨ variant ≠ m.xkbCurrentVariant)
    ∧ (layout = m.xkbCurrentLayout → variant = m.xkbCurrentVariant →
        xkbMapChange m layout variant = (false, m)) := by
  unfold xkbMapChange
  by_cases h1 : layout = m.xkbCurrentLayout
  · by_cases h2 : variant = m.xkbCurrentVariant
    · simp [h1, h2]
    · simp [h1, h2]
  · by_cases h2 : variant = m.xkbCurrentVariant
    · simp [h1, h2]
    · simp [h1, h2]

theorem xkbMapChange_keeps (m : LayoutsManager) (layout variant : String) :
    (xkbMapChange m layout variant).2.currentHwkbLayoutType = m.currentHwkbLayoutType
    ∧ (xkbMapChange m layout variant).2.hwKeyboard = m.hwKeyboard := by
  unfold xkbMapChange
  by_cases h1 : layout = m.xkbCurrentLayout
  · by_cases h2 : variant = m.xkbCurrentVariant
    · simp [h1, h2]
    · simp [h1, h2]
  · by_cases h2 : variant = m.xkbCurrentVariant
    · simp [h1, h2]
    · simp [h1, h2]

/-- C16: for every layout and variant string, after setXkbMap(layout, variant) xkbLayout() is
layout and xkbVariant() is variant. The hardware keyboard is re-synchronised if and only if
layout or variant differed from the previous current values: then syncHardwareKeyboard() is
called, the recorded hardware layout type is that of the new layout, and when this type is new
the symbols file of the type is loaded into the hardware keyboard (which holds it when it
loads); otherwise the manager is as before and nothing is done. An immediately repeated call
with the same arguments changes nothing and makes no such call. -/
theorem setXkbMap_sets_and_resyncs (files : LayoutFiles)
    (xkbLayoutType : String → HardwareKeyboardLayout)
    (HwkbLayoutToSymVariant : HardwareKeyboardLayout → HardwareSymbolVariant)
    (m : LayoutsManager) (layout variant : String) :
    xkbLayout (setXkbMap files xkbLayoutType HwkbLayoutToSymVariant m layout variant).manager
      = layout ∧
    xkbVariant (setXkbMap files xkbLayoutType HwkbLayoutToSymVariant m layout variant).manager
      = variant ∧
    (Event.syncHardwareKeyboardCalled
        ∈ (setXkbMap files xkbLayoutType HwkbLayoutToSymVariant m layout variant).trace
      ↔ layout ≠ xkbLayout m ∨ variant ≠ xkbVariant m) ∧
    (layout ≠ xkbLayout m ∨ variant ≠ xkbVariant m →
      (setXkbMap files xkbLayoutType HwkbLayoutToSymVariant m layout
          variant).manager.currentHwkbLayoutType = xkbLayoutType layout
      ∧ (xkbLayoutType layout ≠ m.currentHwkbLayoutType →
          (setXkbMap files xkbLayoutType HwkbLayoutToSymVariant m layout variant).trace
            = Event.syncHardwareKeyboardCalled
              :: Event.load KeyboardSlot.hwKeyboard
                  (symbolVariantFileName (HwkbLayoutToSymVariant (xkbLayoutType layout)))
                  (files (symbolVariantFileName
                    (HwkbLayoutToSymVariant (xkbLayoutType layout)))).isSome
              :: (if (files (symbolVariantFileName
                    (HwkbLayoutToSymVariant (xkbLayoutType layout)))).isSome = true
                  then [Event.emitted Signal.hardwareLayoutChanged] else [])
          ∧ (∀ kb, files (symbolVariantFileName
                (HwkbLayoutToSymVariant (xkbLayoutType layout))) = some kb →
              (setXkbMap files xkbLayoutType HwkbLayoutToSymVariant m layout
                variant).manager.hwKeyboard = kb))
      ∧ (xkbLayoutType layout = m.currentHwkbLayoutType →
          (setXkbMap files xkbLayoutType HwkbLayoutToSymVariant m layout variant).trace
            = [Event.syncHardwareKeyboardCalled]
          ∧ (setXkbMap files xkbLayoutType HwkbLayoutToSymVariant m layout
              variant).manager.hwKeyboard = m.hwKeyboard)) ∧
    (¬ (layout ≠ xkbLayout m ∨ variant ≠ xkbVariant m) →
      setXkbMap files xkbLayoutType HwkbLayoutToSymVariant m layout variant
        = { manager := m, trace := [] }) ∧
    (∀ later : LayoutFiles,
      setXkbMap later xkbLayoutType HwkbLayoutToSymVariant
          (setXkbMap files xkbLayoutType HwkbLayoutToSymVariant m layout variant).manager
          layout variant
        = { manager :=
              (setXkbMap files xkbLayoutType HwkbLayoutToSymVariant m layout variant).manager
            trace := [] }) := by
  obtain ⟨hl, hv, hchanged, hsamemap⟩ := xkbMapChange_spec m layout variant
  obtain ⟨hktype, hkhw⟩ := xkbMapChange_keeps m layout variant
  have hset : xkbLayout
        (setXkbMap files xkbLayoutType HwkbLayoutToSymVariant m layout variant).manager
        = layout
      ∧ xkbVariant
        (setXkbMap files xkbLayoutType HwkbLayoutToSymVariant m layout variant).manager
        = variant
      ∧ (Event.syncHardwareKeyboardCalled
          ∈ (setXkbMap files xkbLayoutType HwkbLayoutToSymVariant m layout variant).trace
        ↔ (xkbMapChange m layout variant).1 = true) := by
    unfold setXkbMap xkbLayout xkbVariant
    by_cases hc : (xkbMapChange m layout variant).1 = true
    · rw [if_pos hc]
      rcases syncHardwareKeyboard_cases files xkbLayoutType HwkbLayoutToSymVariant
          { manager := (xkbMapChange m layout variant).2
            trace := [Event.syncHardwareKeyboardCalled] } with ⟨_, he⟩ | ⟨_, _, h2, h3, h4⟩
      · rw [he]
        exact ⟨hl, hv, by simp [hc]⟩
      · rw [h2, h3, h4]
        exact ⟨hl, hv, by simp [hc]⟩
    · rw [if_neg hc]
      exact ⟨hl, hv, by simp [hc]⟩
  refine ⟨hset.1, hset.2.1, ?_, ?_, ?_, ?_⟩
  · rw [hset.2.2, hchanged]
    rfl
  · intro hdiff
    have hc : (xkbMapChange m layout variant).1 = true := hchanged.mpr hdiff
    have hrun : setXkbMap files xkbLayoutType HwkbLayoutToSymVariant m layout variant
        = syncHardwareKeyboard files xkbLayoutType HwkbLayoutToSymVariant
            { manager := (xkbMapChange m layout variant).2
              trace := [Event.syncHardwareKeyboardCalled] } := by
      unfold setXkbMap
      rw [if_pos hc]
    have hname : xkbLayout (xkbMapChange m layout variant).2 = layout := hl
    rw [hrun]
    rcases syncHardwareKeyboard_cases files xkbLayoutType HwkbLayoutToSymVariant
        { manager := (xkbMapChange m layout variant).2
          trace := [Event.syncHardwareKeyboardCalled] } with ⟨h, he⟩ | ⟨hne, h1, _, _, h4⟩
    · have htype : xkbLayoutType layout = m.currentHwkbLayoutType := by
        have h0 := h
        dsimp only at h0
        rw [hname, hktype] at h0
        exact h0
      rw [he]
      refine ⟨?_, ?_, ?_⟩
      · show (xkbMapChange m layout variant).2.currentHwkbLayoutType = xkbLayoutType layout
        rw [hktype, htype]
      · intro hnew
        exact absurd htype hnew
      · intro _
        exact ⟨rfl, hkhw⟩
    · have hnew : xkbLayoutType layout ≠ m.currentHwkbLayoutType := by
        have h0 := hne
        dsimp only at h0
        rw [hname, hktype] at h0
        exact h0
      have hmanager := (syncHardwareKeyboard_manager files xkbLayoutType
        HwkbLayoutToSymVariant
        { manager := (xkbMapChange m layout variant).2
          trace := [Event.syncHardwareKeyboardCalled] } hne).1
      dsimp only at h1 h4 hmanager
      rw [hname] at h1 h4 hmanager
      refine ⟨h1, ?_, ?_⟩
      · intro _
        refine ⟨?_, ?_⟩
        · rw [h4]
          rfl
        · intro kb hkb
          rw [hmanager kb hkb]
      · intro hold
        exact absurd hold hnew
  · intro hsame
    have h1 : layout = m.xkbCurrentLayout := by
      by_contra hc
      exact hsame (Or.inl hc)
    have h2 : variant = m.xkbCurrentVariant := by
      by_contra hc
      exact hsame (Or.inr hc)
    have hmap := hsamemap h1 h2
    unfold setXkbMap
    rw [hmap]
    simp
  · intro later
    have hsame := (xkbMapChange_spec
      (setXkbMap files xkbLayoutType HwkbLayoutToSymVariant m layout variant).manager
      layout variant).2.2.2 hset.1.symm hset.2.1.symm
    unfold setXkbMap at hsame ⊢
    rw [hsame]
    simp

/-- An instance of the C16 statement: on a new manager, setXkbMap("us", "") sets the layout and
calls syncHardwareKeyboard(), which records the type of "us" and loads hwsymbols_us.xml into
the hardware keyboard; a second such call leaves an empty trace. -/
theorem setXkbMap_sets_and_resyncs_witness :
    xkbLayout (setXkbMap (sampleFiles ["hwsymbols_us"]) sampleXkbLayoutType sampleSymVariant
      LayoutsManager.init "us" "").manager = "us" ∧
    Event.syncHardwareKeyboardCalled
      ∈ (setXkbMap (sampleFiles ["hwsymbols_us"]) sampleXkbLayoutType sampleSymVariant
          LayoutsManager.init "us" "").trace ∧
    (setXkbMap (sampleFiles ["hwsymbols_us"]) sampleXkbLayoutType sampleSymVariant
        LayoutsManager.init "us" "").manager.currentHwkbLayoutType
      = sampleXkbLayoutType "us" ∧
    (setXkbMap (sampleFiles ["hwsymbols_us"]) sampleXkbLayoutType sampleSymVariant
        LayoutsManager.init "us" "").manager.hwKeyboard = sampleKeyboard "hwsymbols_us" ∧
    (setXkbMap (sampleFiles ["hwsymbols_us"]) sampleXkbLayoutType sampleSymVariant
        (setXkbMap (sampleFiles ["hwsymbols_us"]) sampleXkbLayoutType sampleSymVariant
          LayoutsManager.init "us" "").manager "us" "").trace = [] :=
  ⟨(setXkbMap_sets_and_resyncs (sampleFiles ["hwsymbols_us"]) sampleXkbLayoutType
      sampleSymVariant LayoutsManager.init "us" "").1,
   (setXkbMap_sets_and_resyncs (sampleFiles ["hwsymbols_us"]) sampleXkbLayoutType
      sampleSymVariant LayoutsManager.init "us" "").2.2.1.mpr (Or.inl (by decide)),
   ((setXkbMap_sets_and_resyncs (sampleFiles ["hwsymbols_us"]) sampleXkbLayoutType
      sampleSymVariant LayoutsManager.init "us" "").2.2.2.1 (Or.inl (by decide))).1,
   (((setXkbMap_sets_and_resyncs (sampleFiles ["hwsymbols_us"]) sampleXkbLayoutType
      sampleSymVariant LayoutsManager.init "us" "").2.2.2.1 (Or.inl (by decide))).2.1
      (by decide)).2 (sampleKeyboard "hwsymbols_us") (by decide),
   congrArg Performed.trace
     ((setXkbMap_sets_and_resyncs (sampleFiles ["hwsymbols_us"]) sampleXkbLayoutType
        sampleSymVariant LayoutsManager.init "us" "").2.2.2.2.2 (sampleFiles ["hwsymbols_us"]))⟩

/-! ## Properties of the Style image ids and of the style name -/

theorem backgroundId_eq_arg (style : KeyStyle) (state : KeyState) :
    QString.arg (QString.arg background_format (fromKeyStyle style)) (fromKeyState state)
      = backgroundId style state := by
  cases style <;> cases state <;> decide

theorem iconId_eq_arg (icon : KeyIcon) (state : KeyState) :
    QString.arg (QString.arg icon_format (fromKeyIcon icon)) (fromKeyState state)
      = iconId icon state := by
  cases icon <;> cases state <;> decide

theorem QHash.find_filter_other (c : QHash) (id other : String) (h : id ≠ other) :
    List.find? (fun item => decide (item.1 = other))
        (List.filter (fun item => !decide (item.1 = id)) c)
      = List.find? (fun item => decide (item.1 = other)) c := by
  induction c with
  | nil => rfl
  | cons item rest ih =>
    by_cases hi : item.1 = id
    · have hkeep : (!decide (item.1 = id)) = false := by simp [hi]
      have hother : decide (item.1 = other) = false := by
        simp only [decide_eq_false_iff_not]
        exact fun e => h (hi.symm.trans e)
      rw [List.filter_cons, hkeep]
      simp only [Bool.false_eq_true, if_false, List.find?_cons, hother]
      exact ih
    · have hkeep : (!decide (item.1 = id)) = true := by simp [hi]
      rw [List.filter_cons, hkeep]
      simp only [if_true, List.find?_cons]
      cases decide (item.1 = other) with
      | true => rfl
      | false => exact ih

theorem QHash.value_insert_of_ne (c : QHash) (id other : String) (image : QPixmap)
    (h : id ≠ other) : QHash.value (QHash.insert c id image) other = QHash.value c other := by
  unfold QHash.value QHash.insert
  have h1 : decide (id = other) = false := by
    simp only [decide_eq_false_iff_not]
    exact h
  simp only [List.find?_cons, h1]
  rw [QHash.find_filter_other c id other h]

/-- C17: the image-cache ids built by Style are injective. Two distinct (key style, key state)
pairs give distinct keyBackground ids, two distinct (icon, key state) pairs give distinct icon
ids, and no keyBackground id equals an icon id; the ids are the strings that the two arg calls
on the formats produce. So putting an image into the cache under one id leaves what the cache
returns for the id of any other key style, icon or state as it was. -/
theorem style_image_ids_injective :
    (∀ (s1 s2 : KeyStyle) (t1 t2 : KeyState),
      backgroundId s1 t1 = backgroundId s2 t2 → s1 = s2 ∧ t1 = t2) ∧
    (∀ (i1 i2 : KeyIcon) (t1 t2 : KeyState),
      iconId i1 t1 = iconId i2 t2 → i1 = i2 ∧ t1 = t2) ∧
    (∀ (s : KeyStyle) (t1 : KeyState) (i : KeyIcon) (t2 : KeyState),
      backgroundId s t1 ≠ iconId i t2) ∧
    (∀ (s : KeyStyle) (i : KeyIcon) (t : KeyState),
      QString.arg (QString.arg background_format (fromKeyStyle s)) (fromKeyState t)
          = backgroundId s t
        ∧ QString.arg (QString.arg icon_format (fromKeyIcon i)) (fromKeyState t)
          = iconId i t) ∧
    (∀ (c : QHash) (image : QPixmap) (s1 s2 : KeyStyle) (i1 i2 : KeyIcon) (t1 t2 : KeyState),
      (¬ (s1 = s2 ∧ t1 = t2) →
        QHash.value (QHash.insert c (backgroundId s1 t1) image) (backgroundId s2 t2)
          = QHash.value c (backgroundId s2 t2))
      ∧ (¬ (i1 = i2 ∧ t1 = t2) →
        QHash.value (QHash.insert c (iconId i1 t1) image) (iconId i2 t2)
          = QHash.value c (iconId i2 t2))
      ∧ QHash.value (QHash.insert c (backgroundId s1 t1) image) (iconId i2 t2)
          = QHash.value c (iconId i2 t2)
      ∧ QHash.value (QHash.insert c (iconId i1 t1) image) (backgroundId s2 t2)
          = QHash.value c (backgroundId s2 t2)) := by
  have hbackground : ∀ (s1 s2 : KeyStyle) (t1 t2 : KeyState),
      backgroundId s1 t1 = backgroundId s2 t2 → s1 = s2 ∧ t1 = t2 := by
    intro s1 s2 t1 t2
    cases s1 <;> cases t1 <;> cases s2 <;> cases t2 <;> decide
  have hicon : ∀ (i1 i2 : KeyIcon) (t1 t2 : KeyState),
      iconId i1 t1 = iconId i2 t2 → i1 = i2 ∧ t1 = t2 := by
    intro i1 i2 t1 t2
    cases i1 <;> cases t1 <;> cases i2 <;> cases t2 <;> decide
  have hcross : ∀ (s : KeyStyle) (t1 : KeyState) (i : KeyIcon) (t2 : KeyState),
      backgroundId s t1 ≠ iconId i t2 := by
    intro s t1 i t2
    cases s <;> cases t1 <;> cases i <;> cases t2 <;> decide
  refine ⟨hbackground, hicon, hcross, ?_, ?_⟩
  · intro s i t
    exact ⟨backgroundId_eq_arg s t, iconId_eq_arg i t⟩
  · intro c image s1 s2 i1 i2 t1 t2
    refine ⟨?_, ?_, ?_, ?_⟩
    · intro hne
      exact QHash.value_insert_of_ne c _ _ image (fun e => hne (hbackground s1 s2 t1 t2 e))
    · intro hne
      exact QHash.value_insert_of_ne c _ _ image (fun e => hne (hicon i1 i2 t1 t2 e))
    · exact QHash.value_insert_of_ne c _ _ image (hcross s1 t1 i2 t2)
    · exact QHash.value_insert_of_ne c _ _ image (fun e => hcross s2 t2 i1 t1 e.symm)

/-- C18 fails on the code: after setProfile("p1"), setStyleName("blue"), setProfile("p2"),
setStyleName("blue") the second setStyleName finds the name unchanged and does nothing, so the
new store has no group begun: its current group is the empty string, not "blue", and
keyBackground reads the entry outside every group (dead.png, image 4) instead of that of
"blue" in p2.ini (key.png, image 2). With a keyBackground call before the second setProfile,
the cache still holds the image loaded under profile p1 (image 1) and keyBackground returns
it. -/
theorem setStyleName_after_setProfile :
    styleAfterProfileChange
      = some { name := "blue"
               store := some { entries := sampleProfiles "styles/p2.ini", groupStack := [] }
               image_cache := [] } ∧
    (styleAfterProfileChange.bind (fun d => d.store.map QSettings.group)) = some "" ∧
    (styleAfterProfileChange.map (fun d =>
        (Style.keyBackground sampleImages "img" d KeyStyle.NormalStyle
          KeyState.NormalState).1)) = some { data := some 4 } ∧
    (styleAfterLoadAndProfileChange.map (fun d => d.image_cache))
      = some [("background/normal", { data := some 1 })] ∧
    (styleAfterLoadAndProfileChange.map (fun d =>
        (Style.keyBackground sampleImages "img" d KeyStyle.NormalStyle
          KeyState.NormalState).1)) = some { data := some 1 } := by
  decide

end MeegoKeyboard
